import Mathlib

set_option autoImplicit false

/-!
Verification of the globeClock astronomical/time core against its design
specification.  The JavaScript source is embedded shallowly: numeric code is
modelled over an ordered field (`ℚ` for the executable parts, `ℝ` for the
trigonometric pipelines), JS `%` is the truncated remainder, `Math.round x`
is `⌊x + 1/2⌋`, and `Math.atan2` is defined explicitly below.
-/

namespace GlobeClock

section TruncatedMod

variable {K : Type} [LinearOrderedField K] [FloorRing K]

/-- JS `Math.trunc` / the implicit truncation of JS `%`: rounding toward zero. -/
def jsTrunc (x : K) : ℤ :=
  if 0 ≤ x then ⌊x⌋ else ⌈x⌉

/-- JS remainder operator `x % y`: `x - y * trunc (x / y)` (sign of the dividend). -/
def jsMod (x y : K) : K :=
  x - y * (jsTrunc (x / y) : K)

/-- Normalization used throughout `utils.js` (`getSolarParameters` lines 36-41,
`getMoonPosition` line 134): `let r = x % 360; if (r < 0) r += 360`. -/
def norm360 (x : K) : K :=
  let r := jsMod x 360
  if r < 0 then r + 360 else r

/-- Normalization written from the specification text, §4.2/§8: `normalize360` is
the representative of `x` modulo 360 lying in `[0, 360)`. -/
def specNorm360 (x : K) : K :=
  x - 360 * (⌊x / 360⌋ : K)

/-- Normalization written from the specification text, §4.2/§8: `normalize180` is
the representative of `x` modulo 360 lying in `(-180, 180]`. -/
def specNorm180 (x : K) : K :=
  x - 360 * (⌈(x - 180) / 360⌉ : K)

/-- The single-pass Equation-of-Time normalization of `getSolarParameters`
(lines 59-61): `if (eot > 180) eot -= 360; if (eot < -180) eot += 360`. -/
def normEotStep (x : K) : K :=
  let a := if 180 < x then x - 360 else x
  if a < -180 then a + 360 else a

/-- First while loop of `getMoonPosition` (line 137):
`while (moonLon > 180) moonLon -= 360`. -/
def normDown {L : Type} [LinearOrderedField L] [FloorRing L] (x : L) : L :=
  if h : 180 < x then normDown (x - 360) else x
termination_by (⌈x⌉).toNat
decreasing_by
  have h1 : (180 : ℤ) < ⌈x⌉ := by
    rw [Int.lt_ceil]; push_cast; exact h
  have h2 : ⌈x - 360⌉ = ⌈x⌉ - 360 := by
    have := Int.ceil_sub_int x (360 : ℤ)
    push_cast at this
    exact_mod_cast this
  rw [h2]; omega

/-- Second while loop of `getMoonPosition` (line 138):
`while (moonLon < -180) moonLon += 360`. -/
def normUp {L : Type} [LinearOrderedField L] [FloorRing L] (x : L) : L :=
  if h : x < -180 then normUp (x + 360) else x
termination_by (-⌊x⌋).toNat
decreasing_by
  have h1 : ⌊x⌋ < -180 := by
    rw [Int.floor_lt]; push_cast; exact h
  have h2 : ⌊x + 360⌋ = ⌊x⌋ + 360 := by
    have := Int.floor_add_int x (360 : ℤ)
    push_cast at this
    exact_mod_cast this
  rw [h2]; omega

/-- The two while loops of `getMoonPosition` (lines 136-139) run in sequence. -/
def norm180While (x : K) : K :=
  normUp (normDown x)

theorem jsTrunc_of_nonneg {x : K} (h : 0 ≤ x) : jsTrunc x = ⌊x⌋ := by
  simp [jsTrunc, h]

theorem jsTrunc_of_neg {x : K} (h : x < 0) : jsTrunc x = ⌈x⌉ := by
  simp [jsTrunc, not_le.mpr h]

/-- The code's `%`-then-fix normalization agrees with floor-reduction everywhere. -/
theorem norm360_eq_spec (x : K) : norm360 x = specNorm360 x := by
  have h360 : (0 : K) < 360 := by norm_num
  show (let r := jsMod x 360; if r < 0 then r + 360 else r) = specNorm360 x
  unfold jsMod specNorm360
  simp only []
  rcases le_or_lt 0 (x / 360) with h | h
  · rw [jsTrunc_of_nonneg h]
    have hf : ¬ x - 360 * (⌊x / 360⌋ : K) < 0 := by
      have := Int.floor_le (x / 360)
      push_neg
      nlinarith
    rw [if_neg hf]
  · rw [jsTrunc_of_neg h]
    rcases eq_or_lt_of_le (Int.floor_le (x / 360)) with hq | hq
    · have hceil : ⌈x / 360⌉ = ⌊x / 360⌋ := by
        rw [← hq]; simp
      rw [hceil]
      have hx360 : (⌊x / 360⌋ : K) * 360 = x := by
        rw [hq]
        field_simp
      have hz : x - 360 * (⌊x / 360⌋ : K) = 0 := by linarith
      rw [hz]
      norm_num
    · have hceil : ⌈x / 360⌉ = ⌊x / 360⌋ + 1 := by
        refine le_antisymm (Int.ceil_le_floor_add_one _) ?_
        have : ⌊x / 360⌋ < ⌈x / 360⌉ := by
          rw [Int.lt_ceil]; exact hq
        omega
      rw [hceil]
      have hlt : x - 360 * ((⌊x / 360⌋ : K) + 1) < 0 := by
        have := Int.lt_floor_add_one (x / 360)
        nlinarith
      push_cast
      rw [if_pos (by push_cast at hlt ⊢; linarith)]
      ring

theorem specNorm360_nonneg (x : K) : 0 ≤ specNorm360 x := by
  unfold specNorm360
  have := Int.floor_le (x / 360)
  have h360 : (0 : K) < 360 := by norm_num
  nlinarith

theorem specNorm360_lt (x : K) : specNorm360 x < 360 := by
  unfold specNorm360
  have := Int.lt_floor_add_one (x / 360)
  have h360 : (0 : K) < 360 := by norm_num
  nlinarith

theorem norm360_nonneg (x : K) : 0 ≤ norm360 x := by
  rw [norm360_eq_spec]; exact specNorm360_nonneg x

theorem norm360_lt (x : K) : norm360 x < 360 := by
  rw [norm360_eq_spec]; exact specNorm360_lt x

/-- `specNorm360` subtracts an integer multiple of 360. -/
theorem specNorm360_sub_eq (x : K) : ∃ j : ℤ, specNorm360 x = x + 360 * j :=
  ⟨-⌊x / 360⌋, by unfold specNorm360; push_cast; ring⟩

theorem specNorm180_le (x : K) : specNorm180 x ≤ 180 := by
  unfold specNorm180
  have := Int.le_ceil ((x - 180) / 360)
  have h360 : (0 : K) < 360 := by norm_num
  nlinarith

theorem specNorm180_gt (x : K) : -180 < specNorm180 x := by
  unfold specNorm180
  have := Int.ceil_lt_add_one ((x - 180) / 360)
  have h360 : (0 : K) < 360 := by norm_num
  nlinarith

/-- On the interval the code actually feeds it, the single-pass normalization
agrees with the spec's `normalize180` except at the single point `-180`. -/
theorem normEotStep_eq_spec {x : K} (h1 : -360 < x) (h2 : x < 360) (h3 : x ≠ -180) :
    normEotStep x = specNorm180 x := by
  show (let a := if 180 < x then x - 360 else x; if a < -180 then a + 360 else a)
      = specNorm180 x
  unfold specNorm180
  simp only []
  have h360 : (0 : K) < 360 := by norm_num
  rcases lt_trichotomy x (-180) with hx | hx | hx
  · have hc : ⌈(x - 180) / 360⌉ = -1 := by
      rw [Int.ceil_eq_iff]
      refine ⟨?_, ?_⟩
      · push_cast
        rw [lt_div_iff h360]
        linarith
      · push_cast
        rw [div_le_iff h360]
        linarith
    rw [hc]
    rw [if_neg (by linarith : ¬ (180 : K) < x), if_pos hx]
    push_cast
    ring
  · exact absurd hx h3
  · rcases le_or_lt x 180 with hx2 | hx2
    · have hc : ⌈(x - 180) / 360⌉ = 0 := by
        rw [Int.ceil_eq_iff]
        refine ⟨?_, ?_⟩
        · push_cast
          rw [lt_div_iff h360]
          linarith
        · push_cast
          rw [div_le_iff h360]
          linarith
      rw [hc]
      rw [if_neg (by linarith : ¬ (180 : K) < x), if_neg (by push_cast; linarith)]
      push_cast
      ring
    · have hc : ⌈(x - 180) / 360⌉ = 1 := by
        rw [Int.ceil_eq_iff]
        refine ⟨?_, ?_⟩
        · push_cast
          rw [lt_div_iff h360]
          linarith
        · push_cast
          rw [div_le_iff h360]
          linarith
      rw [hc]
      rw [if_pos hx2, if_neg (by push_cast; linarith)]
      push_cast
      ring

theorem normEotStep_mem {x : K} (h1 : -360 < x) (h2 : x < 360) :
    -180 ≤ normEotStep x ∧ normEotStep x ≤ 180 := by
  show -180 ≤ (let a := if 180 < x then x - 360 else x; if a < -180 then a + 360 else a)
      ∧ (let a := if 180 < x then x - 360 else x; if a < -180 then a + 360 else a) ≤ 180
  simp only []
  rcases lt_or_le (180 : K) x with hx | hx
  · rw [if_pos hx, if_neg (not_lt.mpr (by linarith : (-180 : K) ≤ x - 360))]
    constructor <;> linarith
  · rw [if_neg (not_lt.mpr hx)]
    rcases lt_or_le x (-180 : K) with hx2 | hx2
    · rw [if_pos hx2]
      constructor <;> linarith
    · rw [if_neg (not_lt.mpr hx2)]
      constructor <;> linarith

/-- The single-pass normalization only ever shifts by `0` or `±360`. -/
theorem normEotStep_shift (x : K) :
    normEotStep x = x ∨ normEotStep x = x - 360 ∨ normEotStep x = x + 360 := by
  unfold normEotStep
  simp only []
  split <;> split
  · left; ring
  · right; left; rfl
  · right; right; rfl
  · left; rfl

/-- Mathematical floor-based remainder, used to state the specification's
`mod` (§4.6: solar minutes-of-day are taken `mod 24`). -/
def floorMod (x y : K) : K :=
  x - y * (⌊x / y⌋ : K)

theorem floorMod_nonneg {x y : K} (hy : 0 < y) : 0 ≤ floorMod x y := by
  unfold floorMod
  have := Int.floor_le (x / y)
  have h1 : y * (⌊x / y⌋ : K) ≤ y * (x / y) := by
    exact mul_le_mul_of_nonneg_left this (le_of_lt hy)
  have h2 : y * (x / y) = x := by field_simp
  nlinarith [h2]

theorem floorMod_lt {x y : K} (hy : 0 < y) : floorMod x y < y := by
  unfold floorMod
  have := Int.lt_floor_add_one (x / y)
  have h2 : y * (x / y) = x := by field_simp
  nlinarith

theorem jsMod_lt {x y : K} (hy : 0 < y) : jsMod x y < y := by
  unfold jsMod jsTrunc
  have h2 : y * (x / y) = x := by field_simp
  split
  · have := Int.floor_le (x / y)
    nlinarith [Int.lt_floor_add_one (x / y)]
  · have := Int.le_ceil (x / y)
    nlinarith

theorem neg_lt_jsMod {x y : K} (hy : 0 < y) : -y < jsMod x y := by
  unfold jsMod jsTrunc
  have h2 : y * (x / y) = x := by field_simp
  split
  · have := Int.floor_le (x / y)
    nlinarith [Int.lt_floor_add_one (x / y)]
  · have := Int.ceil_lt_add_one (x / y)
    nlinarith [Int.le_ceil (x / y)]

theorem jsMod_nonneg {x y : K} (hy : 0 < y) (hx : 0 ≤ x) : 0 ≤ jsMod x y := by
  unfold jsMod
  rw [jsTrunc_of_nonneg (by positivity)]
  have := Int.floor_le (x / y)
  have h2 : y * (x / y) = x := by field_simp
  nlinarith

theorem specNorm180_eq_self {x : K} (h1 : -180 < x) (h2 : x ≤ 180) :
    specNorm180 x = x := by
  unfold specNorm180
  have hc : ⌈(x - 180) / 360⌉ = 0 := by
    rw [Int.ceil_eq_iff]
    refine ⟨?_, ?_⟩
    · push_cast
      rw [lt_div_iff₀ (by norm_num : (0:K) < 360)]
      linarith
    · rw [div_le_iff₀ (by norm_num : (0:K) < 360)]
      push_cast
      linarith
  rw [hc]
  push_cast
  ring

end TruncatedMod

section WhileNormalization

variable {K : Type} [LinearOrderedField K] [FloorRing K]

theorem normDown_le (x : K) : normDown x ≤ 180 := by
  induction x using normDown.induct with
  | case1 x h ih =>
    rw [normDown.eq_def, dif_pos h]
    exact ih
  | case2 x h =>
    rw [normDown.eq_def, dif_neg h]
    exact not_lt.mp h

theorem neg_le_normUp (x : K) : -180 ≤ normUp x := by
  induction x using normUp.induct with
  | case1 x h ih =>
    rw [normUp.eq_def, dif_pos h]
    exact ih
  | case2 x h =>
    rw [normUp.eq_def, dif_neg h]
    exact not_lt.mp h

theorem normUp_le (x : K) (hx : x ≤ 180) : normUp x ≤ 180 := by
  induction x using normUp.induct with
  | case1 x h ih =>
    rw [normUp.eq_def, dif_pos h]
    exact ih (by linarith)
  | case2 x h =>
    rw [normUp.eq_def, dif_neg h]
    exact hx

theorem norm180While_mem (x : K) :
    -180 ≤ norm180While x ∧ norm180While x ≤ 180 :=
  ⟨neg_le_normUp _, normUp_le _ (normDown_le x)⟩

end WhileNormalization

/-! ### C5: ranges of the normalization operations -/

/-- C5 counterexample: at input `-180` the code's `normalize180` (the while-loop
form of `getMoonPosition`) returns `-180`, which is outside the claimed range
`(-180, 180]`. -/
theorem C5_counterexample :
    norm180While (-180 : ℚ) = -180 ∧ norm180While (-180 : ℚ) ∉ Set.Ioc (-180 : ℚ) 180 := by
  have h : norm180While (-180 : ℚ) = -180 := by
    unfold norm180While
    rw [normDown.eq_def, dif_neg (by norm_num)]
    rw [normUp.eq_def, dif_neg (by norm_num)]
  refine ⟨h, ?_⟩
  rw [h]
  simp

/-- C5 amended: `normalize360` maps every rational into `[0, 360)`; the
normalize-180 operations map into the closed interval `[-180, 180]` (the
while-loop form everywhere, the single-pass Equation-of-Time form on the
interval `(-360, 360)` the solar code feeds it), `-180` being attained. -/
theorem C5_amended :
    (∀ x : ℚ, norm360 x ∈ Set.Ico (0 : ℚ) 360)
    ∧ (∀ x : ℚ, norm180While x ∈ Set.Icc (-180 : ℚ) 180)
    ∧ (∀ x : ℚ, -360 < x → x < 360 → normEotStep x ∈ Set.Icc (-180 : ℚ) 180) := by
  refine ⟨fun x => ⟨norm360_nonneg x, norm360_lt x⟩,
    fun x => ?_, fun x h1 h2 => ?_⟩
  · have := norm180While_mem x
    exact ⟨this.1, this.2⟩
  · have := normEotStep_mem h1 h2
    exact ⟨this.1, this.2⟩

/-- C5 witness: the amended range statement evaluated at `0`. -/
theorem C5_witness :
    -360 < (0 : ℚ) ∧ (0 : ℚ) < 360 ∧ normEotStep (0 : ℚ) ∈ Set.Icc (-180 : ℚ) 180 :=
  ⟨by norm_num, by norm_num, C5_amended.2.2 0 (by norm_num) (by norm_num)⟩

/-! ### C6: lunar mean angles -/

/-- Days since J2000 as computed from a millisecond timestamp by
`getJulianDate` (`utils.js` lines 20-25) followed by `jd - 2451545.0`. -/
def nDaysQ (t : ℚ) : ℚ :=
  (t / 86400000 + 2440587.5) - 2451545

/-- Moon mean longitude (`getMoonPosition` line 106):
`(218.316 + 13.176396 * n) % 360` with no negative fix-up. -/
def moonMeanL (n : ℚ) : ℚ :=
  jsMod (218.316 + 13.176396 * n) 360

/-- Moon mean anomaly (`getMoonPosition` line 108). -/
def moonMeanM (n : ℚ) : ℚ :=
  jsMod (134.963 + 13.064993 * n) 360

/-- Moon mean argument of latitude (`getMoonPosition` line 110). -/
def moonMeanF (n : ℚ) : ℚ :=
  jsMod (93.272 + 13.229350 * n) 360

/-- C6 counterexample: at the UTC instant `t = 938088000000` ms (for which
`n = -100`, a valid pre-J2000 instant) all three lunar mean angles are
negative, hence not in the claimed canonical range `[0, 360)`. -/
theorem C6_counterexample :
    nDaysQ 938088000000 = -100
    ∧ moonMeanL (nDaysQ 938088000000) < 0
    ∧ moonMeanM (nDaysQ 938088000000) < 0
    ∧ moonMeanF (nDaysQ 938088000000) < 0 := by
  have hn : nDaysQ 938088000000 = -100 := by
    norm_num [nDaysQ]
  refine ⟨hn, ?_, ?_, ?_⟩ <;> rw [hn] <;>
    norm_num [moonMeanL, moonMeanM, moonMeanF, jsMod, jsTrunc, Int.ceil_neg]

/-- C6 amended: the raw `%` keeps the lunar mean angles in `(-360, 360)`; they
lie in `[0, 360)` whenever `n ≥ 0` (all instants at or after J2000), but are
negative for sufficiently early instants. -/
theorem C6_amended (n : ℚ) :
    (-360 < moonMeanL n ∧ moonMeanL n < 360
      ∧ -360 < moonMeanM n ∧ moonMeanM n < 360
      ∧ -360 < moonMeanF n ∧ moonMeanF n < 360)
    ∧ (0 ≤ n →
        moonMeanL n ∈ Set.Ico (0 : ℚ) 360
        ∧ moonMeanM n ∈ Set.Ico (0 : ℚ) 360
        ∧ moonMeanF n ∈ Set.Ico (0 : ℚ) 360) := by
  have h360 : (0 : ℚ) < 360 := by norm_num
  unfold moonMeanL moonMeanM moonMeanF
  refine ⟨⟨neg_lt_jsMod h360, jsMod_lt h360, neg_lt_jsMod h360, jsMod_lt h360,
    neg_lt_jsMod h360, jsMod_lt h360⟩, fun hn => ?_⟩
  refine ⟨⟨jsMod_nonneg h360 (by nlinarith), jsMod_lt h360⟩,
    ⟨jsMod_nonneg h360 (by nlinarith), jsMod_lt h360⟩,
    ⟨jsMod_nonneg h360 (by nlinarith), jsMod_lt h360⟩⟩

/-- C6 witness: the amended statement applied at `n = 0`. -/
theorem C6_witness :
    (0 : ℚ) ≤ 0 ∧ moonMeanL 0 ∈ Set.Ico (0 : ℚ) 360 :=
  ⟨le_refl 0, ((C6_amended 0).2 (le_refl 0)).1⟩

/-! ### C9: geometric timezone fallback of the ingestion script -/

/-- JS `Math.round`: round half toward positive infinity. -/
def jsRound (x : ℚ) : ℤ :=
  ⌊x + 1 / 2⌋

/-- Offset computed by the ingestion script's catch branch:
`const offset = Math.round(lon / 15)`. -/
def fallbackOffset (lon : ℚ) : ℤ :=
  jsRound (lon / 15)

/-- Timezone id built by the ingestion script's catch branch:
`Etc/GMT` followed by a sign (negative for positive offsets) and `Math.abs(offset)`. -/
def fallbackTzId (lon : ℚ) : String :=
  "Etc/GMT" ++ (if 0 < fallbackOffset lon then "-" else "+")
    ++ toString (fallbackOffset lon).natAbs

/-- Geometric timezone estimate exactly as the specification §6 words it,
with the floor `⌊lon/15⌋`. -/
def specGeomTzFloor (lon : ℚ) : String :=
  "Etc/GMT" ++ (if 0 < ⌊lon / 15⌋ then "-" else "+") ++ toString (⌊lon / 15⌋).natAbs

/-- Geometric timezone estimate as amended: rounding (`⌊lon/15 + 1/2⌋`) instead
of the floor. -/
def specGeomTzRound (lon : ℚ) : String :=
  "Etc/GMT" ++ (if 0 < ⌊lon / 15 + 1 / 2⌋ then "-" else "+")
    ++ toString (⌊lon / 15 + 1 / 2⌋).natAbs

/-- C9 counterexample: for longitude 100 the code produces `Etc/GMT-7`
(`Math.round(100/15) = 7`), while the spec's formula `⌊100/15⌋ = 6` demands
`Etc/GMT-6`. -/
theorem C9_counterexample :
    fallbackTzId 100 = "Etc/GMT-7" ∧ specGeomTzFloor 100 = "Etc/GMT-6"
      ∧ fallbackTzId 100 ≠ specGeomTzFloor 100 := by
  have h1 : fallbackOffset 100 = 7 := by
    unfold fallbackOffset jsRound
    norm_num
  have h2 : (⌊(100 : ℚ) / 15⌋ : ℤ) = 6 := by norm_num
  refine ⟨?_, ?_, ?_⟩
  · rw [fallbackTzId, h1]; rfl
  · rw [specGeomTzFloor, h2]; rfl
  · rw [fallbackTzId, specGeomTzFloor, h1, h2]; decide
/-- C9 amended: the ingestion fallback uses JS rounding, not the floor: the
record's timezone id is `Etc/GMT` with sign `-` for positive rounded offsets
(`+` otherwise) and magnitude `|round(lon/15)|`. -/
theorem C9_amended (lon : ℚ) : fallbackTzId lon = specGeomTzRound lon := by
  unfold fallbackTzId specGeomTzRound fallbackOffset jsRound
  rfl

/-! ### C2 and C3: reverse time-lookup search (`ui.js`, `UI.handleSearch`) -/

/-- Location record as consumed by the search (`ui.js`): only the fields the
search reads are modelled. -/
structure City where
  name : String
  lat : ℚ
  lon : ℚ
deriving DecidableEq

/-- Outcome of `UI.handleSearch`: either a matched city together with its
minute difference, or the geometric fallback point (latitude, longitude). -/
inductive SearchOutcome
  | found : City → ℚ → SearchOutcome
  | fallbackAt : ℚ → ℚ → SearchOutcome
deriving DecidableEq

/-- Solar minutes-of-day of a city (`ui.js` lines 60-68):
`solarHours = utcHours + lon/15`, single-pass wrap into `[0,24)`, times 60. -/
def solarMinutes (utcHours : ℚ) (c : City) : ℚ :=
  let s0 := utcHours + c.lon / 15
  let s1 := if s0 < 0 then s0 + 24 else s0
  let s2 := if 24 ≤ s1 then s1 - 24 else s1
  s2 * 60

/-- Circular minute difference (`ui.js` lines 70-71):
`diff = |solarMinutes - targetMinutes|; if (diff > 720) diff = 1440 - diff`. -/
def cityDiff (utcHours targetMinutes : ℚ) (c : City) : ℚ :=
  let d := |solarMinutes utcHours c - targetMinutes|
  if 720 < d then 1440 - d else d

/-- One step of the minimum-tracking loop (`ui.js` lines 73-76): strict `<`
against the running minimum, which starts as Infinity (modelled by `none`). -/
def searchStep (utcHours targetMinutes : ℚ) (acc : Option (City × ℚ)) (c : City) :
    Option (City × ℚ) :=
  let d := cityDiff utcHours targetMinutes c
  match acc with
  | none => some (c, d)
  | some (b, md) => if d < md then some (c, d) else some (b, md)

/-- The whole scan over the dataset (`ui.js` lines 58-78). -/
def searchFold (utcHours targetMinutes : ℚ) (cities : List City) : Option (City × ℚ) :=
  cities.foldl (searchStep utcHours targetMinutes) none

/-- Fallback branch of `UI.handleSearch` (`ui.js` lines 86-105): offset from
target local hours to current UTC hours, single-pass wrap into `[-12,12]`,
times 15, single-pass wrap into `[-180,180]`; pin at latitude 0. -/
def fallbackOutcome (utcHours : ℚ) (h m : ℕ) : SearchOutcome :=
  let target : ℚ := (h : ℚ) + (m : ℚ) / 60
  let o0 := target - utcHours
  let o1 := if o0 < -12 then o0 + 24 else o0
  let o2 := if 12 < o1 then o1 - 24 else o1
  let t0 := o2 * 15
  let t1 := if 180 < t0 then t0 - 360 else t0
  let t2 := if t1 < -180 then t1 + 360 else t1
  .fallbackAt 0 t2

/-- `UI.handleSearch` (`ui.js` lines 41-106) at a fixed current-UTC-hours value:
accept the tracked minimum when `minDiff ≤ 30`, otherwise fall back. -/
def handleSearch (utcHours : ℚ) (cities : List City) (h m : ℕ) : SearchOutcome :=
  let targetMinutes : ℚ := (h : ℚ) * 60 + (m : ℚ)
  match searchFold utcHours targetMinutes cities with
  | some (b, d) => if d ≤ 30 then .found b d else fallbackOutcome utcHours h m
  | none => fallbackOutcome utcHours h m

/-- Invariant of the minimum-tracking fold: starting from accumulator
`(b0, d0)`, the fold returns either `(b0, d0)` itself (when nothing beat it)
or the first city of the remaining list attaining a strictly smaller diff than
everything before it and no larger than everything after it. -/
theorem searchFold_go_spec (u tm : ℚ) :
    ∀ (l : List City) (b0 : City) (d0 : ℚ),
      ∃ b d, List.foldl (searchStep u tm) (some (b0, d0)) l = some (b, d)
        ∧ ((b = b0 ∧ d = d0 ∧ ∀ c ∈ l, d0 ≤ cityDiff u tm c)
          ∨ (∃ l1 l2, l = l1 ++ b :: l2 ∧ d = cityDiff u tm b ∧ d < d0
              ∧ (∀ c ∈ l1, d < cityDiff u tm c) ∧ (∀ c ∈ l2, d ≤ cityDiff u tm c))) := by
  intro l
  induction l with
  | nil =>
    intro b0 d0
    exact ⟨b0, d0, rfl, Or.inl ⟨rfl, rfl, by simp⟩⟩
  | cons c cs ih =>
    intro b0 d0
    by_cases hc : cityDiff u tm c < d0
    · have hstep : searchStep u tm (some (b0, d0)) c = some (c, cityDiff u tm c) := by
        unfold searchStep
        simp only []
        rw [if_pos hc]
      obtain ⟨b, d, hfold, hcase⟩ := ih c (cityDiff u tm c)
      refine ⟨b, d, by rw [List.foldl_cons, hstep]; exact hfold, ?_⟩
      rcases hcase with ⟨hb, hd, hall⟩ | ⟨l1, l2, hsplit, hd, hlt, hfirst, hrest⟩
      · right
        exact ⟨[], cs, by simp [hb], by rw [hd, hb], by rw [hd]; exact hc,
          by simp, by rw [hd]; exact hall⟩
      · right
        refine ⟨c :: l1, l2, by rw [hsplit]; simp, hd, by linarith, ?_, hrest⟩
        intro c2 hc2
        rcases List.mem_cons.mp hc2 with rfl | hc2
        · linarith
        · exact hfirst c2 hc2
    · have hstep : searchStep u tm (some (b0, d0)) c = some (b0, d0) := by
        unfold searchStep
        simp only []
        rw [if_neg hc]
      obtain ⟨b, d, hfold, hcase⟩ := ih b0 d0
      refine ⟨b, d, by rw [List.foldl_cons, hstep]; exact hfold, ?_⟩
      rcases hcase with ⟨hb, hd, hall⟩ | ⟨l1, l2, hsplit, hd, hlt, hfirst, hrest⟩
      · left
        refine ⟨hb, hd, ?_⟩
        intro c2 hc2
        rcases List.mem_cons.mp hc2 with rfl | hc2
        · exact not_lt.mp hc
        · exact hall c2 hc2
      · right
        refine ⟨c :: l1, l2, by rw [hsplit]; simp, hd, hlt, ?_, hrest⟩
        intro c2 hc2
        rcases List.mem_cons.mp hc2 with rfl | hc2
        · exact lt_of_lt_of_le hlt (not_lt.mp hc)
        · exact hfirst c2 hc2

/-- Scan result: the returned pair is the first city attaining the strict
minimum of the circular diffs; every dataset member has a diff at least `d`. -/
theorem searchFold_spec (u tm : ℚ) (cities : List City) (b : City) (d : ℚ)
    (hs : searchFold u tm cities = some (b, d)) :
    (∃ l1 l2, cities = l1 ++ b :: l2 ∧ d = cityDiff u tm b
      ∧ ∀ c ∈ l1, d < cityDiff u tm c)
    ∧ ∀ c ∈ cities, d ≤ cityDiff u tm c := by
  cases cities with
  | nil => exact absurd hs (by unfold searchFold; simp)
  | cons c0 cs =>
    have h0 : searchFold u tm (c0 :: cs)
        = List.foldl (searchStep u tm) (some (c0, cityDiff u tm c0)) cs := by
      unfold searchFold
      rw [List.foldl_cons]
      rfl
    obtain ⟨b2, d2, hfold, hcase⟩ := searchFold_go_spec u tm cs c0 (cityDiff u tm c0)
    rw [h0, hfold] at hs
    obtain ⟨hb2, hd2⟩ : b2 = b ∧ d2 = d := by
      have := Option.some.inj hs
      exact ⟨congrArg Prod.fst this, congrArg Prod.snd this⟩
    subst hb2 hd2
    rcases hcase with ⟨hb, hd, hall⟩ | ⟨l1, l2, hsplit, hd, hlt, hfirst, hrest⟩
    · subst hb
      refine ⟨⟨[], cs, by simp, hd, by simp⟩, ?_⟩
      intro c2 hc2
      rcases List.mem_cons.mp hc2 with rfl | hc2
      · exact le_of_eq hd
      · rw [hd]; exact hall c2 hc2
    · refine ⟨⟨c0 :: l1, l2, by rw [hsplit]; simp, hd, ?_⟩, ?_⟩
      · intro c2 hc2
        rcases List.mem_cons.mp hc2 with rfl | hc2
        · linarith
        · exact hfirst c2 hc2
      · intro c2 hc2
        rcases List.mem_cons.mp hc2 with rfl | hc2
        · linarith
        · rw [hsplit] at hc2
          rcases List.mem_append.mp hc2 with hc2 | hc2
          · exact le_of_lt (hfirst c2 hc2)
          · rcases List.mem_cons.mp hc2 with rfl | hc2
            · exact le_of_eq hd
            · exact hrest c2 hc2

theorem fallbackOutcome_ne_found (u : ℚ) (h m : ℕ) (b : City) (d : ℚ) :
    fallbackOutcome u h m ≠ .found b d := by
  intro hcon
  exact SearchOutcome.noConfusion hcon

/-- Acceptance policy of `UI.handleSearch`: a city is reported found exactly
when it is the tracked minimum and its diff is at most 30 minutes. -/
theorem handleSearch_found_iff (u : ℚ) (cities : List City) (h m : ℕ)
    (b : City) (d : ℚ) :
    handleSearch u cities h m = .found b d
      ↔ (searchFold u ((h : ℚ) * 60 + (m : ℚ)) cities = some (b, d) ∧ d ≤ 30) := by
  unfold handleSearch
  simp only []
  cases hsf : searchFold u ((h : ℚ) * 60 + (m : ℚ)) cities with
  | none =>
    simp only [hsf]
    constructor
    · intro hcon
      exact absurd hcon (fallbackOutcome_ne_found u h m b d)
    · rintro ⟨hcon, -⟩
      exact Option.noConfusion hcon
  | some p =>
    obtain ⟨b2, d2⟩ := p
    simp only [hsf]
    by_cases hd2 : d2 ≤ 30
    · rw [if_pos hd2]
      simp only [SearchOutcome.found.injEq, Option.some.injEq, Prod.mk.injEq]
      constructor
      · rintro ⟨rfl, rfl⟩
        exact ⟨⟨rfl, rfl⟩, hd2⟩
      · rintro ⟨⟨rfl, rfl⟩, -⟩
        exact ⟨rfl, rfl⟩
    · rw [if_neg hd2]
      constructor
      · intro hcon
        exact absurd hcon (fallbackOutcome_ne_found u h m b d)
      · rintro ⟨heq, hle⟩
        obtain ⟨rfl, rfl⟩ : b2 = b ∧ d2 = d := by
          have := Option.some.inj heq
          exact ⟨congrArg Prod.fst this, congrArg Prod.snd this⟩
        exact absurd hle hd2

/-- Solar minutes-of-day are the floor-mod-24 wrap scaled to minutes, in
`[0, 1440)`, whenever UTC hours are in `[0, 24)` and longitude in `[-180, 180]`. -/
theorem solarMinutes_eq (u : ℚ) (c : City) (hu0 : 0 ≤ u) (hu24 : u < 24)
    (hl1 : -180 ≤ c.lon) (hl2 : c.lon ≤ 180) :
    solarMinutes u c = floorMod (u + c.lon / 15) 24 * 60
      ∧ 0 ≤ solarMinutes u c ∧ solarMinutes u c < 1440 := by
  have hlon1 : -12 ≤ c.lon / 15 := by linarith
  have hlon2 : c.lon / 15 ≤ 12 := by linarith
  simp only [solarMinutes, floorMod]
  rcases lt_or_le (u + c.lon / 15) 0 with hs | hs
  · have hfl : ⌊(u + c.lon / 15) / 24⌋ = -1 := by
      rw [Int.floor_eq_iff]
      push_cast
      constructor
      · rw [le_div_iff₀ (by norm_num : (0:ℚ) < 24)]
        linarith
      · rw [div_lt_iff₀ (by norm_num : (0:ℚ) < 24)]
        linarith
    rw [hfl, if_pos hs,
      if_neg (not_le.mpr (by linarith : u + c.lon / 15 + 24 < 24))]
    push_cast
    refine ⟨by ring, by nlinarith, by nlinarith⟩
  · rw [if_neg (not_lt.mpr hs)]
    rcases lt_or_le (u + c.lon / 15) 24 with hs2 | hs2
    · have hfl : ⌊(u + c.lon / 15) / 24⌋ = 0 := by
        rw [Int.floor_eq_iff]
        push_cast
        constructor
        · positivity
        · rw [div_lt_iff₀ (by norm_num : (0:ℚ) < 24)]
          linarith
      rw [hfl, if_neg (not_le.mpr hs2)]
      push_cast
      refine ⟨by ring, by nlinarith, by nlinarith⟩
    · have hfl : ⌊(u + c.lon / 15) / 24⌋ = 1 := by
        rw [Int.floor_eq_iff]
        push_cast
        constructor
        · rw [le_div_iff₀ (by norm_num : (0:ℚ) < 24)]
          linarith
        · rw [div_lt_iff₀ (by norm_num : (0:ℚ) < 24)]
          linarith
      rw [hfl, if_pos hs2]
      push_cast
      refine ⟨by ring, by nlinarith, by nlinarith⟩

/-- City of the §8 example with longitude 0. -/
def cityA : City := ⟨"CityA", 0, 0⟩

/-- City of the §8 example with longitude 180. -/
def cityB : City := ⟨"CityB", 0, 180⟩

/-- C2: the reverse search computes solar minutes-of-day as
`((utcHours + lon/15) mod 24) * 60 ∈ [0,1440)`, tracks the first-seen minimum
of the circular diffs, reports a city found exactly when that minimum is at
most 30 minutes, and on the two-city example dataset at `utcHours = 12` the
query 12:00 selects CityA with diff 0 and the query 00:05 selects CityB with
diff 5. -/
theorem C2_reverse_search :
    (∀ (u : ℚ) (c : City), 0 ≤ u → u < 24 → -180 ≤ c.lon → c.lon ≤ 180 →
        solarMinutes u c = floorMod (u + c.lon / 15) 24 * 60
        ∧ 0 ≤ solarMinutes u c ∧ solarMinutes u c < 1440)
    ∧ (∀ (u tm : ℚ) (cities : List City) (b : City) (d : ℚ),
        searchFold u tm cities = some (b, d) →
          (∃ l1 l2, cities = l1 ++ b :: l2 ∧ d = cityDiff u tm b
            ∧ ∀ c ∈ l1, d < cityDiff u tm c)
          ∧ ∀ c ∈ cities, d ≤ cityDiff u tm c)
    ∧ (∀ (u : ℚ) (cities : List City) (h m : ℕ) (b : City) (d : ℚ),
        handleSearch u cities h m = .found b d
          ↔ (searchFold u ((h : ℚ) * 60 + (m : ℚ)) cities = some (b, d) ∧ d ≤ 30))
    ∧ handleSearch 12 [cityA, cityB] 12 0 = .found cityA 0
    ∧ handleSearch 12 [cityA, cityB] 0 5 = .found cityB 5 := by
  refine ⟨solarMinutes_eq, searchFold_spec, handleSearch_found_iff, ?_, ?_⟩
  · norm_num [handleSearch, searchFold, searchStep, cityDiff, solarMinutes,
      fallbackOutcome, cityA, cityB, List.foldl]
  · norm_num [handleSearch, searchFold, searchStep, cityDiff, solarMinutes,
      fallbackOutcome, cityA, cityB, List.foldl]

/-- C2 witness: the solar-minutes clause evaluated at `utcHours = 12`, CityA. -/
theorem C2_witness :
    solarMinutes 12 cityA = floorMod (12 + cityA.lon / 15) 24 * 60
      ∧ 0 ≤ solarMinutes 12 cityA ∧ solarMinutes 12 cityA < 1440 :=
  C2_reverse_search.1 12 cityA (by norm_num) (by norm_num)
    (by norm_num [cityA]) (by norm_num [cityA])

/-- Fallback synthesis: under well-formed inputs the reported point is at
latitude 0 and longitude `off * 15` for the circularly wrapped hour offset
`off ∈ [-12, 12]`. -/
theorem fallbackOutcome_eq (u : ℚ) (h m : ℕ) (hu0 : 0 ≤ u) (hu24 : u < 24)
    (hh : h ≤ 23) (hm : m ≤ 59) :
    ∃ off : ℚ, fallbackOutcome u h m = .fallbackAt 0 (off * 15)
      ∧ -12 ≤ off ∧ off ≤ 12
      ∧ (∃ j : ℤ, off = ((h : ℚ) + (m : ℚ) / 60 - u) + 24 * j) := by
  have hh' : (h : ℚ) ≤ 23 := by exact_mod_cast hh
  have hm' : (m : ℚ) ≤ 59 := by exact_mod_cast hm
  have hh0 : (0 : ℚ) ≤ (h : ℚ) := by positivity
  have hm0 : (0 : ℚ) ≤ (m : ℚ) := by positivity
  have ht0 : (0 : ℚ) ≤ (h : ℚ) + (m : ℚ) / 60 := by positivity
  have ht24 : (h : ℚ) + (m : ℚ) / 60 < 24 := by linarith
  simp only [fallbackOutcome]
  rcases lt_or_le ((h : ℚ) + (m : ℚ) / 60 - u) (-12) with h1 | h1
  · refine ⟨(h : ℚ) + (m : ℚ) / 60 - u + 24, ?_, by linarith, by linarith, 1, by push_cast; ring⟩
    rw [if_pos h1,
      if_neg (not_lt.mpr (by linarith : (h : ℚ) + (m : ℚ) / 60 - u + 24 ≤ 12)),
      if_neg (not_lt.mpr (by nlinarith : ((h : ℚ) + (m : ℚ) / 60 - u + 24) * 15 ≤ 180)),
      if_neg (not_lt.mpr (by nlinarith : (-180 : ℚ) ≤ ((h : ℚ) + (m : ℚ) / 60 - u + 24) * 15))]
  · rw [if_neg (not_lt.mpr h1)]
    rcases lt_or_le (12 : ℚ) ((h : ℚ) + (m : ℚ) / 60 - u) with h2 | h2
    · refine ⟨(h : ℚ) + (m : ℚ) / 60 - u - 24, ?_, by linarith, by linarith, -1, by push_cast; ring⟩
      rw [if_pos h2,
        if_neg (not_lt.mpr (by nlinarith : ((h : ℚ) + (m : ℚ) / 60 - u - 24) * 15 ≤ 180)),
        if_neg (not_lt.mpr (by nlinarith : (-180 : ℚ) ≤ ((h : ℚ) + (m : ℚ) / 60 - u - 24) * 15))]
    · refine ⟨(h : ℚ) + (m : ℚ) / 60 - u, ?_, h1, h2, 0, by push_cast; ring⟩
      rw [if_neg (not_lt.mpr h2),
        if_neg (not_lt.mpr (by nlinarith : ((h : ℚ) + (m : ℚ) / 60 - u) * 15 ≤ 180)),
        if_neg (not_lt.mpr (by nlinarith : (-180 : ℚ) ≤ ((h : ℚ) + (m : ℚ) / 60 - u) * 15))]

/-- C3 counterexample: with an empty dataset, query 00:00 at `utcHours = 12`
the code reports longitude `-180`, while `normalize180(offset * 15)` as the
claim states it is `180`. -/
theorem C3_counterexample :
    handleSearch 12 [] 0 0 = .fallbackAt 0 (-180)
    ∧ specNorm180 ((((0 : ℕ) : ℚ) + ((0 : ℕ) : ℚ) / 60 - 12) * 15) = 180
    ∧ (-180 : ℚ) ≠ 180 := by
  refine ⟨?_, ?_, by norm_num⟩
  · norm_num [handleSearch, searchFold, searchStep, fallbackOutcome, List.foldl]
  · norm_num [specNorm180, Int.ceil_neg]

/-- C3 amended: when no location is within 30 minutes (or the dataset is
empty), the search reports the fallback at latitude 0 and longitude
`off * 15`, where `off` is the target-to-UTC hour offset wrapped into
`[-12, 12]`; that longitude lies in `[-180, 180]` and agrees with
`normalize180(off * 15)` except at the boundary value `-180`, which the code
reports as `-180` rather than `180`.  The §8 example (query 06:00 at UTC hours
0, fallback longitude 90) holds. -/
theorem C3_amended :
    (∀ (u : ℚ) (cities : List City) (h m : ℕ), 0 ≤ u → u < 24 → h ≤ 23 → m ≤ 59 →
      (∀ c ∈ cities, 30 < cityDiff u ((h : ℚ) * 60 + (m : ℚ)) c) →
      ∃ off : ℚ, handleSearch u cities h m = .fallbackAt 0 (off * 15)
        ∧ -12 ≤ off ∧ off ≤ 12
        ∧ (∃ j : ℤ, off = ((h : ℚ) + (m : ℚ) / 60 - u) + 24 * j)
        ∧ (off * 15 ≠ -180 → specNorm180 (off * 15) = off * 15))
    ∧ handleSearch 0 [] 6 0 = .fallbackAt 0 90 := by
  constructor
  · intro u cities h m hu0 hu24 hh hm hfar
    obtain ⟨off, heq, ho1, ho2, hj⟩ := fallbackOutcome_eq u h m hu0 hu24 hh hm
    have hspec : off * 15 ≠ -180 → specNorm180 (off * 15) = off * 15 := by
      intro hne
      refine specNorm180_eq_self ?_ (by linarith)
      rcases lt_or_eq_of_le (by linarith : (-180 : ℚ) ≤ off * 15) with hlt | hcon
      · exact hlt
      · exact absurd hcon.symm hne
    have hfb : handleSearch u cities h m = fallbackOutcome u h m := by
      unfold handleSearch
      simp only []
      cases hsf : searchFold u ((h : ℚ) * 60 + (m : ℚ)) cities with
      | none => rfl
      | some p =>
        obtain ⟨b, d⟩ := p
        obtain ⟨⟨l1, l2, hsplit, hd, -⟩, -⟩ :=
          searchFold_spec u ((h : ℚ) * 60 + (m : ℚ)) cities b d hsf
        have hbmem : b ∈ cities := by
          rw [hsplit]
          exact List.mem_append.mpr (Or.inr (List.mem_cons_self b l2))
        have : 30 < d := hd ▸ hfar b hbmem
        show (if d ≤ 30 then SearchOutcome.found b d else fallbackOutcome u h m)
            = fallbackOutcome u h m
        rw [if_neg (not_le.mpr this)]
    exact ⟨off, by rw [hfb]; exact heq, ho1, ho2, hj, hspec⟩
  · norm_num [handleSearch, searchFold, searchStep, fallbackOutcome, List.foldl]

/-- C3 witness: the amended fallback statement applied to the empty dataset,
query 06:00 at UTC hours 0. -/
theorem C3_witness :
    ∃ off : ℚ, handleSearch 0 [] 6 0 = .fallbackAt 0 (off * 15)
      ∧ -12 ≤ off ∧ off ≤ 12
      ∧ (∃ j : ℤ, off = ((6 : ℕ) : ℚ) + ((0 : ℕ) : ℚ) / 60 - 0 + 24 * j)
      ∧ (off * 15 ≠ -180 → specNorm180 (off * 15) = off * 15) :=
  C3_amended.1 0 [] 6 0 (by norm_num) (by norm_num) (by norm_num) (by norm_num)
    (by simp)

/-! ### C8: civil-time formatter -/

/-- `getLocalTime` (`utils.js` lines 67-79).  The external timezone database
(`toLocaleTimeString` with a `timeZone` option) is modelled as an oracle
returning `none` exactly when it throws on an unrecognized timezone id; the
catch branch returns the sentinel `"00:00:00"`. -/
def getLocalTime (tzdb : String → Option String) (timezone : String) : String :=
  match tzdb timezone with
  | some s => s
  | none => "00:00:00"

/-- C8: the civil-time formatter is a total function — an unrecognized
timezone id yields the sentinel `"00:00:00"`, and a recognized one yields
exactly the string the timezone database produced for that zone. -/
theorem C8_never_raises (tzdb : String → Option String) (timezone : String) :
    (tzdb timezone = none → getLocalTime tzdb timezone = "00:00:00")
    ∧ (∀ s, tzdb timezone = some s → getLocalTime tzdb timezone = s) := by
  constructor
  · intro hn
    unfold getLocalTime
    rw [hn]
  · intro s hs
    unfold getLocalTime
    rw [hs]

/-- C8 witness: an oracle that recognizes nothing yields the sentinel. -/
theorem C8_witness :
    getLocalTime (fun _ => none) "Mars/Olympus" = "00:00:00" :=
  (C8_never_raises (fun _ => none) "Mars/Olympus").1 rfl

/-! ### Real-valued layer: projection, `atan2`, solar and lunar pipelines -/

noncomputable section RealLayer

open Real

/-- `const deg2rad = Math.PI / 180` (`utils.js` line 17). -/
def deg2rad : ℝ := π / 180

/-- `const rad2deg = 180 / Math.PI` (`utils.js` line 18). -/
def rad2deg : ℝ := 180 / π

/-- `getJulianDate` (`utils.js` lines 20-25): milliseconds since the Unix
epoch to Julian Date. -/
def getJulianDate (t : ℝ) : ℝ := t / 86400000 + 2440587.5

/-- Days since J2000: `jd - 2451545.0`. -/
def nDays (t : ℝ) : ℝ := getJulianDate t - 2451545

/-- JS `Math.atan2 y x`: the angle in `(-π, π]` of the point `(x, y)`. -/
def atan2 (y x : ℝ) : ℝ :=
  if 0 < x then arctan (y / x)
  else if x < 0 then (if 0 ≤ y then arctan (y / x) + π else arctan (y / x) - π)
  else if 0 < y then π / 2 else if y < 0 then -(π / 2) else 0

/-- `latLonToVector3` (`utils.js` lines 3-15): Y-up frame, longitude 0 on +Z. -/
def latLonToVector3 (lat lon radius : ℝ) : ℝ × ℝ × ℝ :=
  (radius * cos (lat * deg2rad) * sin (lon * deg2rad),
    radius * sin (lat * deg2rad),
    radius * cos (lat * deg2rad) * cos (lon * deg2rad))

/-- Euclidean norm of a modelled 3-vector. -/
def vecNorm (v : ℝ × ℝ × ℝ) : ℝ := Real.sqrt (v.1 ^ 2 + v.2.1 ^ 2 + v.2.2 ^ 2)

/-- UTC decimal hours of a timestamp,
`getUTCHours() + getUTCMinutes()/60 + getUTCSeconds()/3600` with the ECMA-262
floor/positive-modulo field definitions. -/
def utcHoursOf (t : ℝ) : ℝ :=
  ((⌊t / 3600000⌋ % 24 : ℤ) : ℝ) + ((⌊t / 60000⌋ % 60 : ℤ) : ℝ) / 60
    + ((⌊t / 1000⌋ % 60 : ℤ) : ℝ) / 3600

/-- Mean longitude `L` of `getSolarParameters` (lines 36-37). -/
def solarL (t : ℝ) : ℝ := norm360 (280.460 + 0.9856474 * nDays t)

/-- Mean anomaly `g` of `getSolarParameters` (lines 40-41). -/
def solarG (t : ℝ) : ℝ := norm360 (357.528 + 0.9856003 * nDays t)

/-- Ecliptic longitude `lambda` of `getSolarParameters` (line 44). -/
def solarLambda (t : ℝ) : ℝ :=
  solarL t + 1.915 * sin (solarG t * deg2rad) + 0.020 * sin (2 * solarG t * deg2rad)

/-- Obliquity `epsilon` of `getSolarParameters` (line 47). -/
def solarEpsilon (t : ℝ) : ℝ := 23.439 - 0.0000004 * nDays t

/-- Right ascension before the negative fix-up (`getSolarParameters` line 50). -/
def solarAlphaRaw (t : ℝ) : ℝ :=
  atan2 (cos (solarEpsilon t * deg2rad) * sin (solarLambda t * deg2rad))
    (cos (solarLambda t * deg2rad)) * rad2deg

/-- Right ascension `alpha` (`getSolarParameters` lines 50-51). -/
def solarAlpha (t : ℝ) : ℝ :=
  let a := solarAlphaRaw t
  if a < 0 then a + 360 else a

/-- Declination `delta` (`getSolarParameters` line 54). -/
def solarDelta (t : ℝ) : ℝ :=
  arcsin (sin (solarEpsilon t * deg2rad) * sin (solarLambda t * deg2rad)) * rad2deg

/-- Equation of Time in minutes (`getSolarParameters` lines 57-62). -/
def solarEot (t : ℝ) : ℝ := normEotStep (solarL t - solarAlpha t) * 4

/-- Specification §4.2 step 1, written from the spec text. -/
def specSolarL (t : ℝ) : ℝ := specNorm360 (280.460 + 0.9856474 * nDays t)

/-- Specification §4.2 step 2. -/
def specSolarG (t : ℝ) : ℝ := specNorm360 (357.528 + 0.9856003 * nDays t)

/-- Specification §4.2 step 3. -/
def specSolarLambda (t : ℝ) : ℝ :=
  specSolarL t + 1.915 * sin (specSolarG t * deg2rad)
    + 0.020 * sin (2 * specSolarG t * deg2rad)

/-- Specification §4.2 step 4. -/
def specSolarEpsilon (t : ℝ) : ℝ := 23.439 - 0.0000004 * nDays t

/-- Specification §4.2 step 5: `normalize360(atan2(cos ε · sin λ, cos λ))`. -/
def specSolarAlpha (t : ℝ) : ℝ :=
  specNorm360 (atan2 (cos (specSolarEpsilon t * deg2rad) * sin (specSolarLambda t * deg2rad))
    (cos (specSolarLambda t * deg2rad)) * rad2deg)

/-- Specification §4.2 step 6. -/
def specSolarDelta (t : ℝ) : ℝ :=
  arcsin (sin (specSolarEpsilon t * deg2rad) * sin (specSolarLambda t * deg2rad)) * rad2deg

/-- Specification §4.2 step 7: `eot = normalize180(L - α) · 4`. -/
def specSolarEot (t : ℝ) : ℝ := specNorm180 (specSolarL t - specSolarAlpha t) * 4

/-- `getSunPosition` (`utils.js` lines 81-98): sub-solar point projected at
radius 100. -/
def getSunPosition (t : ℝ) : ℝ × ℝ × ℝ :=
  latLonToVector3 (solarDelta t) ((12 - utcHoursOf t) * 15 + solarEot t / 4) 100

/-- Moon mean longitude over ℝ (`getMoonPosition` line 106). -/
def moonLR (t : ℝ) : ℝ := jsMod (218.316 + 13.176396 * nDays t) 360

/-- Moon mean anomaly over ℝ (`getMoonPosition` line 108). -/
def moonMR (t : ℝ) : ℝ := jsMod (134.963 + 13.064993 * nDays t) 360

/-- Moon mean argument of latitude over ℝ (`getMoonPosition` line 110). -/
def moonFR (t : ℝ) : ℝ := jsMod (93.272 + 13.229350 * nDays t) 360

/-- Moon ecliptic longitude (`getMoonPosition` line 113). -/
def moonLambda (t : ℝ) : ℝ := moonLR t + 6.289 * sin (moonMR t * deg2rad)

/-- Moon ecliptic latitude (`getMoonPosition` line 115). -/
def moonBeta (t : ℝ) : ℝ := 5.128 * sin (moonFR t * deg2rad)

/-- Obliquity used by the moon code (`getMoonPosition` line 120). -/
def moonEpsilon (t : ℝ) : ℝ := 23.439 - 0.0000004 * nDays t

/-- Moon right ascension (`getMoonPosition` line 123). -/
def moonRa (t : ℝ) : ℝ :=
  atan2 (sin (moonLambda t * deg2rad) * cos (moonEpsilon t * deg2rad)
      - tan (moonBeta t * deg2rad) * sin (moonEpsilon t * deg2rad))
    (cos (moonLambda t * deg2rad)) * rad2deg

/-- Moon declination (`getMoonPosition` line 124). -/
def moonDec (t : ℝ) : ℝ :=
  arcsin (sin (moonBeta t * deg2rad) * cos (moonEpsilon t * deg2rad)
    + cos (moonBeta t * deg2rad) * sin (moonEpsilon t * deg2rad)
      * sin (moonLambda t * deg2rad)) * rad2deg

/-- Greenwich sidereal time (`getMoonPosition` lines 131-132), `%`-plus-fix. -/
def gstOf (t : ℝ) : ℝ :=
  norm360 (100.46061837 + 0.9856473662862 * nDays t + 15 * utcHoursOf t)

/-- Sub-Earth moon longitude (`getMoonPosition` lines 134-138). -/
def moonLonOf (t : ℝ) : ℝ := norm180While (moonRa t - gstOf t)

/-- `getMoonPosition` (`utils.js` lines 100-142): projected at radius 40. -/
def getMoonPosition (t : ℝ) : ℝ × ℝ × ℝ :=
  latLonToVector3 (moonDec t) (moonLonOf t) 40

end RealLayer

open Real

/-! ### C10: the projection maps onto the sphere of its radius -/

theorem latLonToVector3_sq (lat lon radius : ℝ) :
    (latLonToVector3 lat lon radius).1 ^ 2 + (latLonToVector3 lat lon radius).2.1 ^ 2
      + (latLonToVector3 lat lon radius).2.2 ^ 2 = radius ^ 2 := by
  unfold latLonToVector3
  simp only []
  have h1 := Real.sin_sq_add_cos_sq (lon * deg2rad)
  have h2 := Real.sin_sq_add_cos_sq (lat * deg2rad)
  calc (radius * Real.cos (lat * deg2rad) * Real.sin (lon * deg2rad)) ^ 2
        + (radius * Real.sin (lat * deg2rad)) ^ 2
        + (radius * Real.cos (lat * deg2rad) * Real.cos (lon * deg2rad)) ^ 2
      = radius ^ 2 * (Real.sin (lat * deg2rad) ^ 2 + Real.cos (lat * deg2rad) ^ 2
          * (Real.sin (lon * deg2rad) ^ 2 + Real.cos (lon * deg2rad) ^ 2)) := by ring
    _ = radius ^ 2 := by rw [h1, mul_one, h2, mul_one]

/-- C10: the geodetic projection always lands on the sphere of radius
`radius`; in particular the Sun position vector has norm 100 and the Moon
position vector norm 40 at every instant. -/
theorem C10_projection_norm :
    (∀ lat lon radius : ℝ,
        (latLonToVector3 lat lon radius).1 ^ 2 + (latLonToVector3 lat lon radius).2.1 ^ 2
          + (latLonToVector3 lat lon radius).2.2 ^ 2 = radius ^ 2)
    ∧ (∀ lat lon radius : ℝ, 0 ≤ radius → vecNorm (latLonToVector3 lat lon radius) = radius)
    ∧ (∀ t : ℝ, vecNorm (getSunPosition t) = 100)
    ∧ (∀ t : ℝ, vecNorm (getMoonPosition t) = 40) := by
  have hnorm : ∀ lat lon radius : ℝ, 0 ≤ radius →
      vecNorm (latLonToVector3 lat lon radius) = radius := by
    intro lat lon radius hr
    unfold vecNorm
    rw [latLonToVector3_sq, Real.sqrt_sq hr]
  refine ⟨latLonToVector3_sq, hnorm, ?_, ?_⟩
  · intro t
    unfold getSunPosition
    exact hnorm _ _ _ (by norm_num)
  · intro t
    unfold getMoonPosition
    exact hnorm _ _ _ (by norm_num)

/-- C10 witness: the radius clause at `(0, 0, 1)`. -/
theorem C10_witness : vecNorm (latLonToVector3 0 0 1) = 1 :=
  C10_projection_norm.2.1 0 0 1 (by norm_num)

/-! ### Facts about `atan2` -/

theorem sqrt_sq_add_sq_pos {x y : ℝ} (h : x ≠ 0 ∨ y ≠ 0) :
    0 < Real.sqrt (x ^ 2 + y ^ 2) := by
  apply Real.sqrt_pos.mpr
  rcases h with hx | hy
  · have h1 : 0 < x ^ 2 := lt_of_le_of_ne (sq_nonneg x) (Ne.symm (pow_ne_zero 2 hx))
    nlinarith [sq_nonneg y]
  · have h1 : 0 < y ^ 2 := lt_of_le_of_ne (sq_nonneg y) (Ne.symm (pow_ne_zero 2 hy))
    nlinarith [sq_nonneg x]

theorem sqrt_one_add_div_sq {x : ℝ} (hx : x ≠ 0) (y : ℝ) :
    Real.sqrt (1 + (y / x) ^ 2) = Real.sqrt (x ^ 2 + y ^ 2) / |x| := by
  have h1 : 1 + (y / x) ^ 2 = (x ^ 2 + y ^ 2) / x ^ 2 := by
    field_simp
  rw [h1, Real.sqrt_div' _ (sq_nonneg x), Real.sqrt_sq_eq_abs]

theorem cos_atan2 (y x : ℝ) (h : x ≠ 0 ∨ y ≠ 0) :
    Real.cos (atan2 y x) = x / Real.sqrt (x ^ 2 + y ^ 2) := by
  have hR := sqrt_sq_add_sq_pos h
  have hRne := ne_of_gt hR
  unfold atan2
  rcases lt_trichotomy x 0 with hx | hx | hx
  · rw [if_neg (not_lt.mpr hx.le), if_pos hx]
    have hkey : Real.cos (Real.arctan (y / x)) = -x / Real.sqrt (x ^ 2 + y ^ 2) := by
      rw [Real.cos_arctan, sqrt_one_add_div_sq (ne_of_lt hx) y, abs_of_neg hx, one_div_div]
    by_cases hy : 0 ≤ y
    · rw [if_pos hy, Real.cos_add_pi, hkey]
      ring
    · rw [if_neg hy, Real.cos_sub_pi, hkey]
      ring
  · subst hx
    have hy : y ≠ 0 := by
      rcases h with hx | hy
      · exact absurd rfl hx
      · exact hy
    rw [if_neg (lt_irrefl 0), if_neg (lt_irrefl 0)]
    rcases lt_trichotomy y 0 with hy2 | hy2 | hy2
    · rw [if_neg (not_lt.mpr hy2.le), if_pos hy2, Real.cos_neg, Real.cos_pi_div_two,
        zero_div]
    · exact absurd hy2 hy
    · rw [if_pos hy2, Real.cos_pi_div_two, zero_div]
  · rw [if_pos hx, Real.cos_arctan, sqrt_one_add_div_sq (ne_of_gt hx) y,
      abs_of_pos hx, one_div_div]

theorem sin_atan2 (y x : ℝ) (h : x ≠ 0 ∨ y ≠ 0) :
    Real.sin (atan2 y x) = y / Real.sqrt (x ^ 2 + y ^ 2) := by
  have hR := sqrt_sq_add_sq_pos h
  have hRne := ne_of_gt hR
  unfold atan2
  rcases lt_trichotomy x 0 with hx | hx | hx
  · have hxne := ne_of_lt hx
    have hkey : Real.sin (Real.arctan (y / x)) = -y / Real.sqrt (x ^ 2 + y ^ 2) := by
      rw [Real.sin_arctan, sqrt_one_add_div_sq hxne y, abs_of_neg hx]
      field_simp
      ring
    rw [if_neg (not_lt.mpr hx.le), if_pos hx]
    by_cases hy : 0 ≤ y
    · rw [if_pos hy, Real.sin_add_pi, hkey]
      ring
    · rw [if_neg hy, Real.sin_sub_pi, hkey]
      ring
  · subst hx
    have hy : y ≠ 0 := by
      rcases h with hx | hy
      · exact absurd rfl hx
      · exact hy
    rw [if_neg (lt_irrefl 0), if_neg (lt_irrefl 0)]
    have hsq : (0 : ℝ) ^ 2 + y ^ 2 = y ^ 2 := by ring
    rcases lt_trichotomy y 0 with hy2 | hy2 | hy2
    · rw [if_neg (not_lt.mpr hy2.le), if_pos hy2, Real.sin_neg, Real.sin_pi_div_two,
        hsq, Real.sqrt_sq_eq_abs, abs_of_neg hy2]
      rw [div_neg, div_self hy]
    · exact absurd hy2 hy
    · rw [if_pos hy2, Real.sin_pi_div_two, hsq, Real.sqrt_sq_eq_abs, abs_of_pos hy2,
        div_self hy]
  · rw [if_pos hx, Real.sin_arctan, sqrt_one_add_div_sq (ne_of_gt hx) y,
      abs_of_pos hx]
    field_simp

theorem atan2_mem_Ioc (y x : ℝ) : -π < atan2 y x ∧ atan2 y x ≤ π := by
  have hpi := Real.pi_pos
  have ha1 := Real.neg_pi_div_two_lt_arctan (y / x)
  have ha2 := Real.arctan_lt_pi_div_two (y / x)
  unfold atan2
  rcases lt_trichotomy x 0 with hx | hx | hx
  · rw [if_neg (not_lt.mpr hx.le), if_pos hx]
    by_cases hy : 0 ≤ y
    · rw [if_pos hy]
      have hnp : Real.arctan (y / x) ≤ 0 := by
        have hq : y / x ≤ 0 := div_nonpos_of_nonneg_of_nonpos hy hx.le
        calc Real.arctan (y / x) ≤ Real.arctan 0 :=
              Real.arctan_strictMono.monotone hq
          _ = 0 := Real.arctan_zero
      constructor <;> linarith
    · rw [if_neg hy]
      have hq : 0 < y / x := div_pos_of_neg_of_neg (not_le.mp hy) hx
      have hnp : 0 < Real.arctan (y / x) := by
        calc (0 : ℝ) = Real.arctan 0 := Real.arctan_zero.symm
          _ < Real.arctan (y / x) := Real.arctan_strictMono hq
      constructor <;> linarith
  · subst hx
    rw [if_neg (lt_irrefl 0), if_neg (lt_irrefl 0)]
    rcases lt_trichotomy y 0 with hy | hy | hy
    · rw [if_neg (not_lt.mpr hy.le), if_pos hy]
      constructor <;> linarith
    · subst hy
      rw [if_neg (lt_irrefl 0), if_neg (lt_irrefl 0)]
      constructor <;> linarith
    · rw [if_pos hy]
      constructor <;> linarith
  · rw [if_pos hx]
    constructor <;> linarith

theorem atan2_scale {k : ℝ} (hk : 0 < k) (y x : ℝ) :
    atan2 (k * y) (k * x) = atan2 y x := by
  have hdiv : k * y / (k * x) = y / x := by
    rcases eq_or_ne x 0 with rfl | hx
    · simp
    · rw [mul_div_mul_left y x (ne_of_gt hk)]
  unfold atan2
  rcases lt_trichotomy x 0 with hx | hx | hx
  · rw [if_neg (not_lt.mpr (le_of_lt (mul_neg_of_pos_of_neg hk hx))),
      if_pos (mul_neg_of_pos_of_neg hk hx),
      if_neg (not_lt.mpr hx.le), if_pos hx, hdiv]
    by_cases hy : 0 ≤ y
    · rw [if_pos (mul_nonneg hk.le hy), if_pos hy]
    · rw [if_neg (not_le.mpr (mul_neg_of_pos_of_neg hk (not_le.mp hy))), if_neg hy]
  · subst hx
    rw [mul_zero]
    simp only [lt_self_iff_false, if_false]
    rcases lt_trichotomy y 0 with hy | hy | hy
    · rw [if_neg (not_lt.mpr (le_of_lt (mul_neg_of_pos_of_neg hk hy))),
        if_pos (mul_neg_of_pos_of_neg hk hy),
        if_neg (not_lt.mpr hy.le), if_pos hy]
    · subst hy
      rw [mul_zero]
    · rw [if_pos (mul_pos hk hy), if_pos hy]
  · rw [if_pos (mul_pos hk hx), if_pos hx, hdiv]

theorem atan2_sin_cos {θ : ℝ} (h1 : -π < θ) (h2 : θ ≤ π) :
    atan2 (Real.sin θ) (Real.cos θ) = θ := by
  have hpi := Real.pi_pos
  rcases lt_trichotomy (Real.cos θ) 0 with hc | hc | hc
  · rcases le_or_lt 0 (Real.sin θ) with hs | hs
    · have hθ1 : π / 2 < θ := by
        by_contra hcon
        push_neg at hcon
        rcases le_or_lt (-(π / 2)) θ with h3 | h3
        · exact absurd (Real.cos_nonneg_of_mem_Icc ⟨h3, hcon⟩) (not_le.mpr hc)
        · have hneg : Real.sin θ < 0 :=
            Real.sin_neg_of_neg_of_neg_pi_lt (by linarith) h1
          linarith
      unfold atan2
      rw [if_neg (not_lt.mpr hc.le), if_pos hc, if_pos hs]
      rw [← Real.tan_eq_sin_div_cos, ← Real.tan_sub_pi,
        Real.arctan_tan (by linarith) (by linarith)]
      ring
    · have hθ1 : θ < -(π / 2) := by
        by_contra hcon
        push_neg at hcon
        rcases le_or_lt θ (π / 2) with h3 | h3
        · exact absurd (Real.cos_nonneg_of_mem_Icc ⟨hcon, h3⟩) (not_le.mpr hc)
        · have hpos : 0 ≤ Real.sin θ :=
            Real.sin_nonneg_of_nonneg_of_le_pi (by linarith) h2
          linarith
      unfold atan2
      rw [if_neg (not_lt.mpr hc.le), if_pos hc, if_neg (not_le.mpr hs)]
      rw [← Real.tan_eq_sin_div_cos, ← Real.tan_add_pi,
        Real.arctan_tan (by linarith) (by linarith)]
      ring
  · obtain ⟨k, hk⟩ := Real.cos_eq_zero_iff.mp hc
    have hk2 : k = 0 ∨ k = -1 := by
      have hb1 : -π < (2 * (k : ℝ) + 1) * π / 2 := hk ▸ h1
      have hb2 : (2 * (k : ℝ) + 1) * π / 2 ≤ π := hk ▸ h2
      have h3 : (-2 : ℝ) < 2 * (k : ℝ) + 1 := by nlinarith
      have h4 : 2 * (k : ℝ) + 1 ≤ 2 := by nlinarith
      have h3i : (-2 : ℤ) < 2 * k + 1 := by exact_mod_cast h3
      have h4i : 2 * k + 1 ≤ (2 : ℤ) := by exact_mod_cast h4
      omega
    rcases hk2 with rfl | rfl
    · have hθ : θ = π / 2 := by
        rw [hk]
        push_cast
        ring
      rw [hθ, Real.sin_pi_div_two, Real.cos_pi_div_two]
      unfold atan2
      rw [if_neg (lt_irrefl 0), if_neg (lt_irrefl 0), if_pos one_pos]
    · have hθ : θ = -(π / 2) := by
        rw [hk]
        push_cast
        ring
      rw [hθ, Real.sin_neg, Real.cos_neg, Real.sin_pi_div_two, Real.cos_pi_div_two]
      unfold atan2
      rw [if_neg (lt_irrefl 0), if_neg (lt_irrefl 0),
        if_neg (by norm_num : ¬ (0 : ℝ) < -1), if_pos (by norm_num : (-1 : ℝ) < 0)]
  · have hθ1 : -(π / 2) < θ := by
      by_contra hcon
      push_neg at hcon
      have hnonpos : Real.cos θ ≤ 0 := by
        have hx := @Real.cos_nonpos_of_pi_div_two_le_of_le
          (-θ) (by linarith) (by linarith)
        rwa [Real.cos_neg] at hx
      linarith
    have hθ2 : θ < π / 2 := by
      by_contra hcon
      push_neg at hcon
      have hnonpos : Real.cos θ ≤ 0 :=
        Real.cos_nonpos_of_pi_div_two_le_of_le hcon (by linarith)
      linarith
    unfold atan2
    rw [if_pos hc, ← Real.tan_eq_sin_div_cos, Real.arctan_tan hθ1 hθ2]

theorem atan2_recover {k θ : ℝ} (hk : 0 < k) (h1 : -π < θ) (h2 : θ ≤ π) :
    atan2 (k * Real.sin θ) (k * Real.cos θ) = θ := by
  rw [atan2_scale hk, atan2_sin_cos h1 h2]

/-! ### C7: round-trip of the geodetic projection -/

noncomputable section RecoverySection

/-- Latitude recovery of the §8 round-trip property: `asin(y / r)` in degrees. -/
def recoverLat (v : ℝ × ℝ × ℝ) (radius : ℝ) : ℝ :=
  Real.arcsin (v.2.1 / radius) * rad2deg

/-- Longitude recovery of the §8 round-trip property: `atan2(x, z)` in degrees. -/
def recoverLon (v : ℝ × ℝ × ℝ) : ℝ :=
  atan2 v.1 v.2.2 * rad2deg

end RecoverySection

theorem deg_rad_deg (x : ℝ) : x * deg2rad * rad2deg = x := by
  unfold deg2rad rad2deg
  field_simp

/-- C7 counterexample: at the pole `lat = 90`, `lon = 180`, `r = 1` the
projected vector is `(0, 1, 0)` and the `atan2` inversion returns longitude
`0`, not `180` — the round-trip fails at the poles. -/
theorem C7_counterexample :
    latLonToVector3 90 180 1 = (0, 1, 0)
    ∧ recoverLon (latLonToVector3 90 180 1) = 0
    ∧ (0 : ℝ) ≠ 180 := by
  have h90 : (90 : ℝ) * deg2rad = π / 2 := by
    unfold deg2rad
    ring
  have h180 : (180 : ℝ) * deg2rad = π := by
    unfold deg2rad
    ring
  have hv : latLonToVector3 90 180 1 = (0, 1, 0) := by
    unfold latLonToVector3
    rw [h90, h180, Real.cos_pi_div_two, Real.sin_pi_div_two, Real.sin_pi, Real.cos_pi]
    norm_num
  refine ⟨hv, ?_, by norm_num⟩
  rw [hv]
  unfold recoverLon atan2
  norm_num

/-- C7 amended: for `lat` strictly inside `(-90, 90)` (the poles excluded),
`lon ∈ (-180, 180]` and positive radius, the `asin`/`atan2` inversion recovers
latitude and longitude exactly. -/
theorem C7_amended (lat lon radius : ℝ) (h1 : -90 < lat) (h2 : lat < 90)
    (h3 : -180 < lon) (h4 : lon ≤ 180) (hr : 0 < radius) :
    recoverLat (latLonToVector3 lat lon radius) radius = lat
    ∧ recoverLon (latLonToVector3 lat lon radius) = lon := by
  have hpi := Real.pi_pos
  have hlat1 : -(π / 2) < lat * deg2rad := by
    unfold deg2rad
    nlinarith [mul_pos (show (0 : ℝ) < lat + 90 by linarith) hpi]
  have hlat2 : lat * deg2rad < π / 2 := by
    unfold deg2rad
    nlinarith [mul_pos (show (0 : ℝ) < 90 - lat by linarith) hpi]
  have hlon1 : -π < lon * deg2rad := by
    unfold deg2rad
    nlinarith [mul_pos (show (0 : ℝ) < lon + 180 by linarith) hpi]
  have hlon2 : lon * deg2rad ≤ π := by
    unfold deg2rad
    nlinarith [mul_nonneg (show (0 : ℝ) ≤ 180 - lon by linarith) hpi.le]
  have hcos : 0 < Real.cos (lat * deg2rad) := Real.cos_pos_of_mem_Ioo ⟨hlat1, hlat2⟩
  constructor
  · unfold recoverLat latLonToVector3
    simp only []
    rw [mul_div_cancel_left₀ _ (ne_of_gt hr), Real.arcsin_sin hlat1.le hlat2.le]
    exact deg_rad_deg lat
  · unfold recoverLon latLonToVector3
    simp only []
    rw [atan2_recover (mul_pos hr hcos) hlon1 hlon2]
    exact deg_rad_deg lon

/-- C7 witness: the amended round-trip at `lat = 0`, `lon = 0`, `r = 1`. -/
theorem C7_witness :
    recoverLat (latLonToVector3 0 0 1) 1 = 0 ∧ recoverLon (latLonToVector3 0 0 1) = 0 :=
  C7_amended 0 0 1 (by norm_num) (by norm_num) (by norm_num) (by norm_num) (by norm_num)

/-! ### C1: the solar ephemeris against the §4.2 reference pipeline -/

theorem rad_deg_rad (x : ℝ) : x * rad2deg * deg2rad = x := by
  unfold rad2deg deg2rad
  field_simp

theorem atan2_deg_mem (y x : ℝ) :
    -180 < atan2 y x * rad2deg ∧ atan2 y x * rad2deg ≤ 180 := by
  obtain ⟨h1, h2⟩ := atan2_mem_Ioc y x
  have hpi := Real.pi_pos
  have hrd : 0 < rad2deg := by
    unfold rad2deg
    positivity
  constructor
  · have h3 : -π * rad2deg < atan2 y x * rad2deg := mul_lt_mul_of_pos_right h1 hrd
    have h4 : -π * rad2deg = -180 := by
      unfold rad2deg
      field_simp
      ring
    linarith
  · have h3 : atan2 y x * rad2deg ≤ π * rad2deg := mul_le_mul_of_nonneg_right h2 hrd.le
    have h4 : π * rad2deg = 180 := by
      unfold rad2deg
      field_simp
    linarith

theorem specNorm360_of_neg {x : ℝ} (h1 : -360 ≤ x) (h2 : x < 0) :
    specNorm360 x = x + 360 := by
  unfold specNorm360
  have hf : ⌊x / 360⌋ = -1 := by
    rw [Int.floor_eq_iff]
    push_cast
    constructor
    · rw [le_div_iff₀ (by norm_num : (0:ℝ) < 360)]
      linarith
    · rw [div_lt_iff₀ (by norm_num : (0:ℝ) < 360)]
      linarith
  rw [hf]
  push_cast
  ring

theorem specNorm360_of_nonneg {x : ℝ} (h1 : 0 ≤ x) (h2 : x < 360) :
    specNorm360 x = x := by
  unfold specNorm360
  have hf : ⌊x / 360⌋ = 0 := by
    rw [Int.floor_eq_iff]
    push_cast
    constructor
    · positivity
    · rw [div_lt_iff₀ (by norm_num : (0:ℝ) < 360)]
      linarith
  rw [hf]
  push_cast
  ring

/-- The reduction-to-equator direction: the equatorial angle
`atan2 (cos ε · sin λ, cos λ)` never departs from `λ` by a quarter turn; its
cosine distance is at least `cos ε`. -/
theorem cos_sub_atan2_ge {lr er : ℝ} (hcos : 0 < Real.cos er) :
    Real.cos er ≤ Real.cos (lr - atan2 (Real.cos er * Real.sin lr) (Real.cos lr)) := by
  set x := Real.cos lr with hx
  set y := Real.cos er * Real.sin lr with hy
  have hxy : x ≠ 0 ∨ y ≠ 0 := by
    rcases eq_or_ne x 0 with hx0 | hx0
    · right
      rw [hy]
      apply mul_ne_zero (ne_of_gt hcos)
      intro hs
      have hone := Real.sin_sq_add_cos_sq lr
      have hc0 : Real.cos lr = 0 := by rw [← hx]; exact hx0
      rw [hs, hc0] at hone
      norm_num at hone
    · left
      exact hx0
  have hR := sqrt_sq_add_sq_pos hxy
  have hR1 : Real.sqrt (x ^ 2 + y ^ 2) ≤ 1 := by
    apply Real.sqrt_le_one.mpr
    rw [hx, hy]
    nlinarith [Real.sin_sq_add_cos_sq lr,
      mul_nonneg (sub_nonneg.mpr (Real.cos_sq_le_one er)) (sq_nonneg (Real.sin lr))]
  rw [Real.cos_sub, cos_atan2 y x hxy, sin_atan2 y x hxy]
  have heq : Real.cos lr * (x / Real.sqrt (x ^ 2 + y ^ 2))
      + Real.sin lr * (y / Real.sqrt (x ^ 2 + y ^ 2))
      = (Real.cos lr * x + Real.sin lr * y) / Real.sqrt (x ^ 2 + y ^ 2) := by
    ring
  rw [heq, le_div_iff₀ hR]
  have hnum : Real.cos er ≤ Real.cos lr * x + Real.sin lr * y := by
    rw [hx, hy]
    nlinarith [Real.sin_sq_add_cos_sq lr,
      mul_nonneg (sq_nonneg (Real.cos lr)) (sub_nonneg.mpr (Real.cos_le_one er))]
  calc Real.cos er * Real.sqrt (x ^ 2 + y ^ 2)
      ≤ Real.cos er * 1 := mul_le_mul_of_nonneg_left hR1 hcos.le
    _ = Real.cos er := mul_one _
    _ ≤ Real.cos lr * x + Real.sin lr * y := hnum

theorem nDays_bound {t : ℝ} (ht : |t| ≤ 8.64e15) : |nDays t| ≤ 100010958 := by
  obtain ⟨ht1, ht2⟩ := abs_le.mp ht
  unfold nDays getJulianDate
  rw [abs_le]
  have h1 : t / 86400000 ≤ 1e8 := by
    rw [div_le_iff₀ (by norm_num : (0:ℝ) < 86400000)]
    norm_num
    linarith
  have h2 : (-1e8 : ℝ) ≤ t / 86400000 := by
    rw [le_div_iff₀ (by norm_num : (0:ℝ) < 86400000)]
    norm_num
    linarith
  constructor <;> norm_num <;> linarith

theorem solarEpsilon_lt {t : ℝ} (ht : |t| ≤ 8.64e15) : |solarEpsilon t| < 64 := by
  obtain ⟨h1, h2⟩ := abs_le.mp (nDays_bound ht)
  unfold solarEpsilon
  rw [abs_lt]
  constructor <;> nlinarith

theorem cos_eps_pos {t : ℝ} (ht : |t| ≤ 8.64e15) :
    0 < Real.cos (solarEpsilon t * deg2rad) := by
  obtain ⟨h1, h2⟩ := abs_lt.mp (solarEpsilon_lt ht)
  have hpi := Real.pi_pos
  apply Real.cos_pos_of_mem_Ioo
  constructor
  · unfold deg2rad
    nlinarith [mul_pos (show (0:ℝ) < solarEpsilon t + 90 by linarith) hpi]
  · unfold deg2rad
    nlinarith [mul_pos (show (0:ℝ) < 90 - solarEpsilon t by linarith) hpi]

/-- The perturbation `λ - L` is at most `1.915 + 0.020` degrees in size. -/
theorem abs_p_le (t : ℝ) : |solarLambda t - solarL t| ≤ 1.935 := by
  unfold solarLambda
  have hs1 : |Real.sin (solarG t * deg2rad)| ≤ 1 := Real.abs_sin_le_one _
  have hs2 : |Real.sin (2 * solarG t * deg2rad)| ≤ 1 := Real.abs_sin_le_one _
  have heq : solarL t + 1.915 * Real.sin (solarG t * deg2rad)
      + 0.020 * Real.sin (2 * solarG t * deg2rad) - solarL t
      = 1.915 * Real.sin (solarG t * deg2rad)
        + 0.020 * Real.sin (2 * solarG t * deg2rad) := by
    ring
  rw [heq]
  calc |1.915 * Real.sin (solarG t * deg2rad) + 0.020 * Real.sin (2 * solarG t * deg2rad)|
      ≤ |1.915 * Real.sin (solarG t * deg2rad)|
        + |0.020 * Real.sin (2 * solarG t * deg2rad)| := abs_add _ _
    _ = 1.915 * |Real.sin (solarG t * deg2rad)|
        + 0.020 * |Real.sin (2 * solarG t * deg2rad)| := by
          rw [abs_mul, abs_mul, abs_of_pos (show (0:ℝ) < 1.915 by norm_num),
            abs_of_pos (show (0:ℝ) < 0.020 by norm_num)]
    _ ≤ 1.915 * 1 + 0.020 * 1 := by gcongr
    _ = 1.935 := by norm_num

theorem cos_p_deg_pos {p : ℝ} (hp : |p| ≤ 1.935) : 0 < Real.cos (p * deg2rad) := by
  obtain ⟨h1, h2⟩ := abs_le.mp hp
  have hpi := Real.pi_pos
  apply Real.cos_pos_of_mem_Ioo
  constructor
  · unfold deg2rad
    nlinarith [mul_pos (show (0:ℝ) < p + 90 by linarith) hpi]
  · unfold deg2rad
    nlinarith [mul_pos (show (0:ℝ) < 90 - p by linarith) hpi]

theorem solarAlphaRaw_mem (t : ℝ) :
    -180 < solarAlphaRaw t ∧ solarAlphaRaw t ≤ 180 := by
  unfold solarAlphaRaw
  exact atan2_deg_mem _ _

theorem solarAlpha_mem (t : ℝ) : 0 ≤ solarAlpha t ∧ solarAlpha t < 360 := by
  obtain ⟨h1, h2⟩ := solarAlphaRaw_mem t
  unfold solarAlpha
  simp only []
  split
  · constructor <;> linarith
  · next hneg => constructor <;> [exact not_lt.mp hneg; linarith]

/-- The mean-longitude-minus-right-ascension never lands exactly on `-180`:
the right ascension stays within a quarter turn of the ecliptic longitude,
which itself stays within 1.935 degrees of `L`. -/
theorem solarAlpha_ne {t : ℝ} (hcos : 0 < Real.cos (solarEpsilon t * deg2rad)) :
    solarL t - solarAlpha t ≠ -180 := by
  intro hcon
  have hpos : 0 < Real.cos (solarLambda t * deg2rad
      - atan2 (Real.cos (solarEpsilon t * deg2rad) * Real.sin (solarLambda t * deg2rad))
        (Real.cos (solarLambda t * deg2rad))) :=
    lt_of_lt_of_le hcos (cos_sub_atan2_ge hcos)
  have hrdp : solarAlphaRaw t * deg2rad
      = atan2 (Real.cos (solarEpsilon t * deg2rad) * Real.sin (solarLambda t * deg2rad))
          (Real.cos (solarLambda t * deg2rad)) := by
    unfold solarAlphaRaw
    exact rad_deg_rad _
  have hppi : 0 < Real.cos ((solarLambda t - solarAlphaRaw t) * deg2rad) := by
    have heq2 : (solarLambda t - solarAlphaRaw t) * deg2rad
        = solarLambda t * deg2rad - solarAlphaRaw t * deg2rad := by
      ring
    rw [heq2, hrdp]
    exact hpos
  have hp := abs_p_le t
  have hcospr := cos_p_deg_pos hp
  have hpi180 : (180 : ℝ) * deg2rad = π := by
    unfold deg2rad
    ring
  simp only [solarAlpha] at hcon
  by_cases hneg : solarAlphaRaw t < 0
  · rw [if_pos hneg] at hcon
    have h6 : solarLambda t - solarAlphaRaw t = (solarLambda t - solarL t) + 180 := by
      linarith
    rw [h6] at hppi
    have h7 : ((solarLambda t - solarL t) + 180) * deg2rad
        = (solarLambda t - solarL t) * deg2rad + π := by
      rw [← hpi180]
      ring
    rw [h7, Real.cos_add_pi] at hppi
    linarith
  · rw [if_neg hneg] at hcon
    have h6 : solarLambda t - solarAlphaRaw t = (solarLambda t - solarL t) - 180 := by
      linarith
    rw [h6] at hppi
    have h7 : ((solarLambda t - solarL t) - 180) * deg2rad
        = (solarLambda t - solarL t) * deg2rad - π := by
      rw [← hpi180]
      ring
    rw [h7, Real.cos_sub_pi] at hppi
    linarith

/-- C1: on every JS-representable UTC instant (`|t| ≤ 8.64·10^15` ms, the
ECMA-262 Date range) the solar ephemeris coincides with the §4.2 reference
pipeline in all outputs: mean longitude, mean anomaly, ecliptic longitude,
obliquity, right ascension, declination and Equation of Time. -/
theorem C1_solar_pipeline (t : ℝ) (ht : |t| ≤ 8.64e15) :
    solarL t = specSolarL t ∧ solarG t = specSolarG t
    ∧ solarLambda t = specSolarLambda t ∧ solarEpsilon t = specSolarEpsilon t
    ∧ solarAlpha t = specSolarAlpha t ∧ solarDelta t = specSolarDelta t
    ∧ solarEot t = specSolarEot t := by
  have hL : solarL t = specSolarL t := norm360_eq_spec _
  have hG : solarG t = specSolarG t := norm360_eq_spec _
  have hLam : solarLambda t = specSolarLambda t := by
    unfold solarLambda specSolarLambda
    rw [hL, hG]
  have hEps : solarEpsilon t = specSolarEpsilon t := rfl
  have hcos : 0 < Real.cos (solarEpsilon t * deg2rad) := cos_eps_pos ht
  have hrawspec : specSolarAlpha t = specNorm360 (solarAlphaRaw t) := by
    unfold specSolarAlpha solarAlphaRaw specSolarEpsilon
    rw [← hLam]
    rfl
  obtain ⟨hraw1, hraw2⟩ := solarAlphaRaw_mem t
  have hAlpha : solarAlpha t = specSolarAlpha t := by
    rw [hrawspec]
    unfold solarAlpha
    simp only []
    by_cases hneg : solarAlphaRaw t < 0
    · rw [if_pos hneg, specNorm360_of_neg (by linarith) hneg]
    · rw [if_neg hneg, specNorm360_of_nonneg (not_lt.mp hneg) (by linarith)]
  have hDelta : solarDelta t = specSolarDelta t := by
    unfold solarDelta specSolarDelta specSolarEpsilon
    rw [← hLam]
    rfl
  have hEot : solarEot t = specSolarEot t := by
    unfold solarEot specSolarEot
    rw [← hL, ← hAlpha]
    have hb1 : 0 ≤ solarL t := norm360_nonneg _
    have hb2 : solarL t < 360 := norm360_lt _
    obtain ⟨hb3, hb4⟩ := solarAlpha_mem t
    congr 1
    exact normEotStep_eq_spec (by linarith) (by linarith) (solarAlpha_ne hcos)
  exact ⟨hL, hG, hLam, hEps, hAlpha, hDelta, hEot⟩

/-- C1 witness: the pipeline equality at the epoch instant `t = 0`. -/
theorem C1_witness : solarEot 0 = specSolarEot 0 :=
  (C1_solar_pipeline 0 (by norm_num)).2.2.2.2.2.2

/-! ### C4: declination and Equation-of-Time ranges -/

theorem sqrt3_le : Real.sqrt 3 ≤ 1.7321 :=
  (Real.sqrt_le_left (by norm_num)).mpr (by norm_num)

theorem le_sqrt3 : 1.732 ≤ Real.sqrt 3 :=
  (Real.le_sqrt' (by norm_num)).mpr (by norm_num)

/-- Extreme but JS-representable instant (about 272 millennia before J2000):
its `n` is `(60 - 280.460 - 360·273790)/0.9856474`, chosen so that the mean
longitude is exactly 60° while the linear obliquity formula has drifted to
about 63.439°. -/
noncomputable def tExtreme : ℝ :=
  86400000 * (-985646204600000 / 9856474) + 946728000000

theorem nDays_tExtreme : nDays tExtreme = -985646204600000 / 9856474 := by
  unfold tExtreme nDays getJulianDate
  rw [add_div, mul_div_cancel_left₀ _ (by norm_num : (86400000:ℝ) ≠ 0)]
  norm_num

theorem solarL_tExtreme : solarL tExtreme = 60 := by
  unfold solarL
  rw [nDays_tExtreme]
  have harg : (280.460 : ℝ) + 0.9856474 * (-985646204600000 / 9856474) = -98564340 := by
    norm_num
  rw [harg, norm360_eq_spec]
  unfold specNorm360
  have hf : ⌊(-98564340 : ℝ) / 360⌋ = -273790 := by
    rw [Int.floor_eq_iff]
    push_cast
    constructor
    · rw [le_div_iff₀ (by norm_num : (0:ℝ) < 360)]
      norm_num
    · rw [div_lt_iff₀ (by norm_num : (0:ℝ) < 360)]
      norm_num
  rw [hf]
  push_cast
  norm_num

theorem solarEpsilon_tExtreme_mem :
    63.4389 ≤ solarEpsilon tExtreme ∧ solarEpsilon tExtreme ≤ 63.439 := by
  unfold solarEpsilon
  rw [nDays_tExtreme]
  norm_num

set_option maxHeartbeats 2000000 in
/-- C4 counterexample: at the extreme instant the code's Equation of Time
exceeds 60 minutes, violating the claimed `[-30, 30]` bound (the linear
obliquity formula is far outside its validity range there). -/
theorem C4_counterexample : 30 < solarEot tExtreme := by
  have hpi3 : (3.1415 : ℝ) < π := Real.pi_gt_d4
  have hpi4 : π < 3.1416 := Real.pi_lt_d4
  have hpiz := Real.pi_pos
  obtain ⟨hε1, hε2⟩ := solarEpsilon_tExtreme_mem
  have hL := solarL_tExtreme
  have hp : |solarLambda tExtreme - solarL tExtreme| ≤ 1.935 := abs_p_le tExtreme
  rw [hL] at hp
  obtain ⟨hp1, hp2⟩ := abs_le.mp hp
  -- radian abbreviations
  have hd60 : (60 : ℝ) * deg2rad = π / 3 := by
    unfold deg2rad
    ring
  have hlr : solarLambda tExtreme * deg2rad
      = π / 3 + (solarLambda tExtreme - 60) * deg2rad := by
    rw [← hd60]
    ring
  have hprb : |(solarLambda tExtreme - 60) * deg2rad| ≤ 0.0338 := by
    unfold deg2rad
    rw [abs_mul, abs_of_pos (by positivity : (0:ℝ) < π / 180)]
    have habs : |solarLambda tExtreme - 60| ≤ 1.935 := hp
    nlinarith [abs_nonneg (solarLambda tExtreme - 60)]
  obtain ⟨hpr1, hpr2⟩ := abs_le.mp hprb
  -- cosine of the ecliptic longitude is at least 0.47
  have hcoslr : 0.47 ≤ Real.cos (solarLambda tExtreme * deg2rad) := by
    rw [hlr, Real.cos_add, Real.cos_pi_div_three, Real.sin_pi_div_three]
    have hc1 : 1 - ((solarLambda tExtreme - 60) * deg2rad) ^ 2 / 2
        ≤ Real.cos ((solarLambda tExtreme - 60) * deg2rad) :=
      Real.one_sub_sq_div_two_le_cos
    have hsq : ((solarLambda tExtreme - 60) * deg2rad) ^ 2 ≤ 0.0338 ^ 2 :=
      sq_le_sq' hpr1 hpr2
    have hs1 : |Real.sin ((solarLambda tExtreme - 60) * deg2rad)|
        ≤ |(solarLambda tExtreme - 60) * deg2rad| := Real.abs_sin_le_abs
    obtain ⟨hs2, hs3⟩ := abs_le.mp (hs1.trans hprb)
    have hmul : Real.sqrt 3 * Real.sin ((solarLambda tExtreme - 60) * deg2rad)
        ≤ 1.7321 * 0.0338 := by
      rcases le_or_lt 0 (Real.sin ((solarLambda tExtreme - 60) * deg2rad)) with h | h
      · exact mul_le_mul sqrt3_le hs3 h (by norm_num)
      · nlinarith [Real.sqrt_nonneg 3]
    linarith
  -- sine of the ecliptic longitude is positive
  have hsinlr : 0 < Real.sin (solarLambda tExtreme * deg2rad) := by
    apply Real.sin_pos_of_pos_of_lt_pi
    · rw [hlr]
      nlinarith
    · rw [hlr]
      nlinarith
  -- cosine of the obliquity is positive but at most 0.449
  have hereq : solarEpsilon tExtreme * deg2rad
      = π / 3 + (solarEpsilon tExtreme - 60) * deg2rad := by
    rw [← hd60]
    ring
  have hδ1 : 0.06 ≤ (solarEpsilon tExtreme - 60) * deg2rad := by
    unfold deg2rad
    nlinarith
  have hδ2 : (solarEpsilon tExtreme - 60) * deg2rad ≤ 0.0601 := by
    unfold deg2rad
    nlinarith
  have hsinδ : 0.0599 ≤ Real.sin ((solarEpsilon tExtreme - 60) * deg2rad) := by
    have hsg := Real.sin_gt_sub_cube
      (by linarith : (0:ℝ) < (solarEpsilon tExtreme - 60) * deg2rad)
      (by linarith : (solarEpsilon tExtreme - 60) * deg2rad ≤ 1)
    have hcube : ((solarEpsilon tExtreme - 60) * deg2rad) ^ 3 ≤ 0.0601 ^ 3 :=
      pow_le_pow_left (by linarith) hδ2 3
    nlinarith [hsg, hcube]
  have hcoseps_le : Real.cos (solarEpsilon tExtreme * deg2rad) ≤ 0.449 := by
    rw [hereq, Real.cos_add, Real.cos_pi_div_three, Real.sin_pi_div_three]
    have hcle : Real.cos ((solarEpsilon tExtreme - 60) * deg2rad) ≤ 1 := Real.cos_le_one _
    have hmul : 1.732 * 0.0599
        ≤ Real.sqrt 3 * Real.sin ((solarEpsilon tExtreme - 60) * deg2rad) :=
      mul_le_mul le_sqrt3 hsinδ (by norm_num) (Real.sqrt_nonneg 3)
    linarith
  have hcoseps_pos : 0 < Real.cos (solarEpsilon tExtreme * deg2rad) := by
    apply Real.cos_pos_of_mem_Ioo
    constructor
    · unfold deg2rad
      nlinarith [mul_pos (show (0:ℝ) < solarEpsilon tExtreme + 90 by linarith) hpiz]
    · unfold deg2rad
      nlinarith [mul_pos (show (0:ℝ) < 90 - solarEpsilon tExtreme by linarith) hpiz]
  -- the atan2 reduces to arctan on the positive-x branch
  set yv := Real.cos (solarEpsilon tExtreme * deg2rad)
      * Real.sin (solarLambda tExtreme * deg2rad) with hyv
  set xv := Real.cos (solarLambda tExtreme * deg2rad) with hxv
  have hxpos : 0 < xv := by
    rw [hxv]
    linarith
  have hypos : 0 < yv := by
    rw [hyv]
    exact mul_pos hcoseps_pos hsinlr
  have hyx : yv < xv := by
    rw [hyv, hxv]
    have hsle : Real.sin (solarLambda tExtreme * deg2rad) ≤ 1 := Real.sin_le_one _
    nlinarith
  have hA : atan2 yv xv = Real.arctan (yv / xv) := by
    unfold atan2
    rw [if_pos hxpos]
  have hA1 : 0 < atan2 yv xv := by
    rw [hA]
    calc (0 : ℝ) = Real.arctan 0 := Real.arctan_zero.symm
      _ < Real.arctan (yv / xv) := Real.arctan_strictMono (div_pos hypos hxpos)
  have hA2 : atan2 yv xv < π / 4 := by
    rw [hA, ← Real.arctan_one]
    exact Real.arctan_strictMono ((div_lt_one hxpos).mpr hyx)
  -- the raw right ascension is in (0, 45)
  have hraw : solarAlphaRaw tExtreme = atan2 yv xv * rad2deg := by
    unfold solarAlphaRaw
    rw [← hyv, ← hxv]
  have hrd : 0 < rad2deg := by
    unfold rad2deg
    positivity
  have hraw1 : 0 < solarAlphaRaw tExtreme := by
    rw [hraw]
    exact mul_pos hA1 hrd
  have hraw2 : solarAlphaRaw tExtreme < 45 := by
    rw [hraw]
    have h45 : (π / 4) * rad2deg = 45 := by
      unfold rad2deg
      field_simp
      ring
    calc atan2 yv xv * rad2deg < (π / 4) * rad2deg := mul_lt_mul_of_pos_right hA2 hrd
      _ = 45 := h45
  -- the negative fix-up does not fire
  have halpha : solarAlpha tExtreme = solarAlphaRaw tExtreme := by
    unfold solarAlpha
    simp only []
    rw [if_neg (not_lt.mpr hraw1.le)]
  -- assemble the Equation of Time
  unfold solarEot
  rw [hL, halpha]
  have hin : (60 : ℝ) - solarAlphaRaw tExtreme ∈ Set.Ioo (15 : ℝ) 60 :=
    ⟨by linarith, by linarith⟩
  have hnorm : normEotStep (60 - solarAlphaRaw tExtreme) = 60 - solarAlphaRaw tExtreme := by
    unfold normEotStep
    simp only []
    rw [if_neg (not_lt.mpr (by linarith : (60:ℝ) - solarAlphaRaw tExtreme ≤ 180)),
      if_neg (not_lt.mpr (by linarith : (-180:ℝ) ≤ 60 - solarAlphaRaw tExtreme))]
  rw [hnorm]
  linarith

theorem solarDelta_mem (t : ℝ) : -90 ≤ solarDelta t ∧ solarDelta t ≤ 90 := by
  unfold solarDelta
  have h1 := Real.neg_pi_div_two_le_arcsin
    (Real.sin (solarEpsilon t * deg2rad) * Real.sin (solarLambda t * deg2rad))
  have h2 := Real.arcsin_le_pi_div_two
    (Real.sin (solarEpsilon t * deg2rad) * Real.sin (solarLambda t * deg2rad))
  have hrd : 0 < rad2deg := by
    unfold rad2deg
    positivity
  have hid : (π / 2) * rad2deg = 90 := by
    unfold rad2deg
    field_simp
    ring
  constructor
  · have h3 := mul_le_mul_of_nonneg_right h1 hrd.le
    have h4 : -(π / 2) * rad2deg = -90 := by
      rw [neg_mul, hid]
    linarith
  · have h3 := mul_le_mul_of_nonneg_right h2 hrd.le
    linarith [hid]

theorem cos_sin_ne_zero {lr er : ℝ} (hcos : 0 < Real.cos er) :
    Real.cos lr ≠ 0 ∨ Real.cos er * Real.sin lr ≠ 0 := by
  rcases eq_or_ne (Real.cos lr) 0 with hc | hc
  · right
    apply mul_ne_zero (ne_of_gt hcos)
    intro hs
    have hone := Real.sin_sq_add_cos_sq lr
    rw [hs, hc] at hone
    norm_num at hone
  · left
    exact hc

/-- Size of the reduction to the equator: the sine of the angle between the
ecliptic longitude and the right ascension is at most `(1-cos ε)/(2 cos ε)`. -/
theorem abs_sin_sub_atan2_le {lr er : ℝ} (hcos : 0 < Real.cos er) :
    |Real.sin (lr - atan2 (Real.cos er * Real.sin lr) (Real.cos lr))|
      ≤ (1 - Real.cos er) / (2 * Real.cos er) := by
  have hxy' : Real.cos lr ≠ 0 ∨ Real.cos er * Real.sin lr ≠ 0 :=
    cos_sin_ne_zero hcos
  have hR : 0 < Real.sqrt (Real.cos lr ^ 2 + (Real.cos er * Real.sin lr) ^ 2) :=
    sqrt_sq_add_sq_pos hxy'
  have hRk : Real.cos er
      ≤ Real.sqrt (Real.cos lr ^ 2 + (Real.cos er * Real.sin lr) ^ 2) := by
    have hsq : Real.cos er ^ 2 ≤ Real.cos lr ^ 2 + (Real.cos er * Real.sin lr) ^ 2 := by
      nlinarith [Real.sin_sq_add_cos_sq lr,
        mul_nonneg (sub_nonneg.mpr (Real.cos_sq_le_one er)) (sq_nonneg (Real.cos lr))]
    calc Real.cos er = Real.sqrt (Real.cos er ^ 2) := (Real.sqrt_sq hcos.le).symm
      _ ≤ _ := Real.sqrt_le_sqrt hsq
  rw [Real.sin_sub, sin_atan2 _ _ hxy', cos_atan2 _ _ hxy']
  have heq : Real.sin lr * (Real.cos lr
        / Real.sqrt (Real.cos lr ^ 2 + (Real.cos er * Real.sin lr) ^ 2))
      - Real.cos lr * (Real.cos er * Real.sin lr
        / Real.sqrt (Real.cos lr ^ 2 + (Real.cos er * Real.sin lr) ^ 2))
      = Real.sin lr * Real.cos lr * (1 - Real.cos er)
        / Real.sqrt (Real.cos lr ^ 2 + (Real.cos er * Real.sin lr) ^ 2) := by
    ring
  rw [heq, abs_div, abs_of_pos hR]
  have hnum : |Real.sin lr * Real.cos lr * (1 - Real.cos er)|
      ≤ (1 - Real.cos er) / 2 := by
    rw [abs_mul]
    have h12 : |Real.sin lr * Real.cos lr| ≤ 1 / 2 := by
      have h2 := Real.abs_sin_le_one (2 * lr)
      rw [Real.sin_two_mul,
        show (2:ℝ) * Real.sin lr * Real.cos lr = 2 * (Real.sin lr * Real.cos lr) from by
          ring,
        abs_mul, abs_two] at h2
      linarith [abs_nonneg (Real.sin lr * Real.cos lr)]
    have h1k : |1 - Real.cos er| = 1 - Real.cos er :=
      abs_of_nonneg (by linarith [Real.cos_le_one er])
    rw [h1k]
    nlinarith [abs_nonneg (Real.sin lr * Real.cos lr), Real.cos_le_one er]
  rw [div_le_div_iff hR (by positivity)]
  calc |Real.sin lr * Real.cos lr * (1 - Real.cos er)| * (2 * Real.cos er)
      ≤ ((1 - Real.cos er) / 2) * (2 * Real.cos er) :=
        mul_le_mul_of_nonneg_right hnum (by positivity)
    _ = (1 - Real.cos er) * Real.cos er := by ring
    _ ≤ (1 - Real.cos er)
        * Real.sqrt (Real.cos lr ^ 2 + (Real.cos er * Real.sin lr) ^ 2) :=
        mul_le_mul_of_nonneg_left hRk (by linarith [Real.cos_le_one er])

set_option maxHeartbeats 2000000 in
/-- Within a century of J2000 (`|n| ≤ 36525` days) the Equation of Time
produced by the code stays within 30 minutes (indeed within 19.2). -/
theorem eot_bound {t : ℝ} (hn : |nDays t| ≤ 36525) : |solarEot t| ≤ 30 := by
  obtain ⟨hn1, hn2⟩ := abs_le.mp hn
  have hpi3 : (3.1415 : ℝ) < π := Real.pi_gt_d4
  have hpi4 : π < 3.1416 := Real.pi_lt_d4
  have hpiz := Real.pi_pos
  have hε1 : 23.424 ≤ solarEpsilon t := by
    unfold solarEpsilon
    nlinarith
  have hε2 : solarEpsilon t ≤ 23.454 := by
    unfold solarEpsilon
    nlinarith
  have her1 : 0 < solarEpsilon t * deg2rad := by
    unfold deg2rad
    apply mul_pos (by linarith)
    positivity
  have her2 : solarEpsilon t * deg2rad ≤ 0.40937 := by
    unfold deg2rad
    nlinarith [mul_le_mul hε2 hpi4.le hpiz.le (by norm_num : (0:ℝ) ≤ 23.454)]
  have hsq : (solarEpsilon t * deg2rad) ^ 2 ≤ 0.40937 ^ 2 :=
    sq_le_sq' (by linarith) her2
  have hk : 0.916 ≤ Real.cos (solarEpsilon t * deg2rad) := by
    have hc := @Real.one_sub_sq_div_two_le_cos (solarEpsilon t * deg2rad)
    nlinarith
  have hcos : 0 < Real.cos (solarEpsilon t * deg2rad) := by linarith
  have hsinD : |Real.sin (solarLambda t * deg2rad
      - atan2 (Real.cos (solarEpsilon t * deg2rad)
          * Real.sin (solarLambda t * deg2rad))
        (Real.cos (solarLambda t * deg2rad)))| ≤ 0.046 := by
    refine (abs_sin_sub_atan2_le hcos).trans ?_
    rw [div_le_iff₀ (by positivity)]
    linarith
  have hcosD : 0 < Real.cos (solarLambda t * deg2rad
      - atan2 (Real.cos (solarEpsilon t * deg2rad)
          * Real.sin (solarLambda t * deg2rad))
        (Real.cos (solarLambda t * deg2rad))) :=
    lt_of_lt_of_le hcos (cos_sub_atan2_ge hcos)
  set lr := solarLambda t * deg2rad with hlr
  set A := atan2 (Real.cos (solarEpsilon t * deg2rad) * Real.sin lr) (Real.cos lr)
    with hA
  have hb1 : 0 ≤ solarL t := norm360_nonneg _
  have hb2 : solarL t < 360 := norm360_lt _
  obtain ⟨hp1, hp2⟩ := abs_le.mp (abs_p_le t)
  have hlr1 : -0.034 < lr := by
    rw [hlr]
    unfold deg2rad
    nlinarith [mul_nonneg (show (0:ℝ) ≤ solarLambda t + 1.935 by linarith) hpiz.le]
  have hlr2 : lr < 6.318 := by
    rw [hlr]
    unfold deg2rad
    nlinarith [mul_pos (show (0:ℝ) < 361.935 - solarLambda t by linarith) hpiz]
  obtain ⟨hA1, hA2⟩ := atan2_mem_Ioc
    (Real.cos (solarEpsilon t * deg2rad) * Real.sin lr) (Real.cos lr)
  have hcase : (-(π/2) < lr - A ∧ lr - A < π/2)
      ∨ (π + π/2 < lr - A ∧ lr - A < 2*π + π/2) := by
    rcases lt_or_le (lr - A) (π/2) with h1 | h1
    · rcases lt_or_le (-(π/2)) (lr - A) with h2 | h2
      · exact Or.inl ⟨h2, h1⟩
      · exfalso
        have hcc : Real.cos (lr - A) ≤ 0 := by
          have h5 := @Real.cos_nonpos_of_pi_div_two_le_of_le
            (-(lr - A)) (by linarith) (by linarith)
          rwa [Real.cos_neg] at h5
        linarith
    · rcases le_or_lt (lr - A) (π + π/2) with h3 | h3
      · exfalso
        have hcc := Real.cos_nonpos_of_pi_div_two_le_of_le h1 h3
        linarith
      · refine Or.inr ⟨h3, ?_⟩
        by_contra h4
        push_neg at h4
        have hcc : Real.cos (lr - A) ≤ 0 := by
          have h5 := @Real.cos_nonpos_of_pi_div_two_le_of_le
            (lr - A - 2*π) (by linarith) (by linarith)
          rwa [Real.cos_sub_two_pi] at h5
        linarith
  have hδe : ∃ (δ : ℝ) (e : ℤ), (e = 0 ∨ e = 1) ∧ lr - A = δ + 2*π*(e:ℝ)
      ∧ -(π/2) < δ ∧ δ < π/2 ∧ Real.sin δ = Real.sin (lr - A) := by
    rcases hcase with ⟨h1, h2⟩ | ⟨h1, h2⟩
    · exact ⟨lr - A, 0, Or.inl rfl, by push_cast; ring, h1, h2, rfl⟩
    · refine ⟨lr - A - 2*π, 1, Or.inr rfl, by push_cast; ring, by linarith, by linarith, ?_⟩
      rw [Real.sin_sub_two_pi]
  obtain ⟨δ, e, he, hDδ, hδ1, hδ2, hδsin⟩ := hδe
  have hsδ : |Real.sin δ| ≤ 0.046 := by
    rw [hδsin]
    exact hsinD
  have hsin120 : (0.046 : ℝ) < Real.sin (1/20) := by
    have hg := Real.sin_gt_sub_cube (by norm_num : (0:ℝ) < 1/20) (by norm_num)
    nlinarith
  have hδb : |δ| ≤ 1/20 := by
    obtain ⟨hs1, hs2⟩ := abs_le.mp hsδ
    rw [abs_le]
    constructor
    · have harc : Real.arcsin (Real.sin (-(1/20 : ℝ))) ≤ Real.arcsin (Real.sin δ) := by
        apply Real.monotone_arcsin
        rw [Real.sin_neg]
        linarith
      rw [Real.arcsin_sin (by linarith : -(π/2) ≤ -(1/20 : ℝ)) (by linarith : -(1/20:ℝ) ≤ π/2),
        Real.arcsin_sin hδ1.le hδ2.le] at harc
      linarith
    · have harc : Real.arcsin (Real.sin δ) ≤ Real.arcsin (Real.sin (1/20 : ℝ)) := by
        apply Real.monotone_arcsin
        linarith
      rw [Real.arcsin_sin hδ1.le hδ2.le,
        Real.arcsin_sin (by linarith : -(π/2) ≤ (1/20:ℝ)) (by linarith : (1/20:ℝ) ≤ π/2)] at harc
      linarith
  have hrd_pos : 0 < rad2deg := by
    unfold rad2deg
    positivity
  have hrd_le : rad2deg ≤ 57.3 := by
    unfold rad2deg
    rw [div_le_iff₀ hpiz]
    nlinarith
  have h2pi : 2*π*(e:ℝ)*rad2deg = 360 * (e:ℝ) := by
    unfold rad2deg
    field_simp
    ring
  have hraw : solarAlphaRaw t = A * rad2deg := by
    unfold solarAlphaRaw
    rw [← hlr, ← hA]
  have hlam : solarLambda t = lr * rad2deg := by
    rw [hlr]
    exact (deg_rad_deg (solarLambda t)).symm
  have hαbr : ∃ c : ℤ, (c = 0 ∨ c = 1)
      ∧ solarAlpha t = solarAlphaRaw t + 360 * (c:ℝ) := by
    unfold solarAlpha
    simp only []
    by_cases hng : solarAlphaRaw t < 0
    · rw [if_pos hng]
      exact ⟨1, Or.inr rfl, by push_cast; ring⟩
    · rw [if_neg hng]
      exact ⟨0, Or.inl rfl, by push_cast; ring⟩
  obtain ⟨c, hc, hαeq⟩ := hαbr
  have hq : |δ * rad2deg - (solarLambda t - solarL t)| ≤ 4.8 := by
    have h1 : |δ * rad2deg| ≤ 2.865 := by
      rw [abs_mul, abs_of_pos hrd_pos]
      calc |δ| * rad2deg ≤ (1/20) * 57.3 :=
            mul_le_mul hδb hrd_le hrd_pos.le (by norm_num)
        _ = 2.865 := by norm_num
    have h2 := abs_add (δ * rad2deg) (-(solarLambda t - solarL t))
    rw [abs_neg] at h2
    calc |δ * rad2deg - (solarLambda t - solarL t)|
        = |δ * rad2deg + -(solarLambda t - solarL t)| := by rw [sub_eq_add_neg]
      _ ≤ |δ * rad2deg| + |solarLambda t - solarL t| := h2
      _ ≤ 2.865 + 1.935 := by
          have hple := abs_p_le t
          linarith
      _ = 4.8 := by norm_num
  obtain ⟨hq1, hq2⟩ := abs_le.mp hq
  have hLα : solarL t - solarAlpha t
      = (δ * rad2deg - (solarLambda t - solarL t)) + 360 * ((e:ℝ) - (c:ℝ)) := by
    rw [hαeq, hraw]
    have hlrA : (lr - A) * rad2deg = δ * rad2deg + 360 * (e:ℝ) := by
      rw [hDδ, add_mul, h2pi]
    have hAr : A * rad2deg = solarLambda t - (δ * rad2deg + 360 * (e:ℝ)) := by
      rw [← hlrA, hlam]
      ring
    rw [hAr]
    ring
  obtain ⟨hα1, hα2⟩ := solarAlpha_mem t
  obtain ⟨hv1, hv2⟩ := normEotStep_mem
    (show (-360 : ℝ) < solarL t - solarAlpha t by linarith)
    (show solarL t - solarAlpha t < 360 by linarith)
  have hw : ∃ j : ℤ, normEotStep (solarL t - solarAlpha t)
      = (δ * rad2deg - (solarLambda t - solarL t)) + 360 * (j:ℝ) := by
    rcases normEotStep_shift (solarL t - solarAlpha t) with hs | hs | hs
    · exact ⟨e - c, by rw [hs, hLα]; push_cast; ring⟩
    · exact ⟨e - c - 1, by rw [hs, hLα]; push_cast; ring⟩
    · exact ⟨e - c + 1, by rw [hs, hLα]; push_cast; ring⟩
  obtain ⟨j, hj⟩ := hw
  have hj0 : j = 0 := by
    have hjr1 : -360 < 360 * (j:ℝ) := by linarith
    have hjr2 : 360 * (j:ℝ) < 360 := by linarith
    have hji1 : (-1 : ℤ) < j := by
      have : (-1 : ℝ) < (j : ℝ) := by linarith
      exact_mod_cast this
    have hji2 : j < 1 := by
      have : (j : ℝ) < 1 := by linarith
      exact_mod_cast this
    omega
  rw [hj0] at hj
  push_cast at hj
  unfold solarEot
  rw [hj]
  rw [abs_le]
  constructor <;> nlinarith

/-- C4 amended: the declination always lies in `[-90°, 90°]`; the Equation of
Time lies in `[-30, 30]` minutes for instants within a century of J2000
(`|n| ≤ 36525` days), but not for every representable instant — at extreme
dates the linear obliquity drift pushes it past 60 minutes. -/
theorem C4_amended :
    (∀ t : ℝ, -90 ≤ solarDelta t ∧ solarDelta t ≤ 90)
    ∧ (∀ t : ℝ, |nDays t| ≤ 36525 → -30 ≤ solarEot t ∧ solarEot t ≤ 30) := by
  refine ⟨solarDelta_mem, fun t hn => ?_⟩
  exact abs_le.mp (eot_bound hn)

/-- C4 witness: the amended bound at the epoch instant `t = 0`
(`|n| = 10957.5 ≤ 36525`). -/
theorem C4_witness : -30 ≤ solarEot 0 ∧ solarEot 0 ≤ 30 :=
  C4_amended.2 0 (by
    rw [show nDays 0 = -10957.5 from by norm_num [nDays, getJulianDate]]
    rw [abs_le]
    norm_num)

end GlobeClock
